import Mathlib

/-!
# check_live_2d_tracking: zoom, coordinate mapping, pyramid loop and key handling

A shallow embedding of `Source/Utilities/check_live_2d_tracking/check_live_2d_tracking.cpp`.

Conventions of the embedding:
* C `int` values are `Int`; the integer division `a / 2` of C (rounding toward zero) is
  `Int.tdiv a 2`.
* `float` and `double` values are rationals (`ℚ`): rounding of floating point is not modelled.
  The conversion `(int)x` of a floating value is `truncToInt x` (rounding toward zero).
  The one place where rounding is modelled is the `float` difference that `drawImageView`
  converts to `int` for a template point: see `roundToBinary32` and `templateVertices`.
* Global variables read or written by the modelled functions are fields of `Globals`;
  `refImageX`, `refImageY`, set once by `loadImage` before the window exists, are parameters.
* A buffer obtained from `arMalloc` is a list of `Option ℚ` cells: `none` is a cell that has
  never been written.
-/

namespace CheckLive2DTracking

/-! ## Constants -/

/-- The macro `DRAW_CORRESPONDENCES_MODE_ALL`. -/
def DRAW_CORRESPONDENCES_MODE_ALL : Int := 7

/-! ## Data -/

/-- A `cv::Point2f`. -/
structure Point2f where
  x : ℚ
  y : ℚ
deriving DecidableEq, Repr

/-- The global variables of the program that the modelled functions use. -/
structure Globals where
  gContextWidth : Int
  gContextHeight : Int
  contextWasUpdated : Bool
  imageZoom : ℚ
  videoWidth : Int
  videoHeight : Int
  videoZoom : ℚ
  gShowHelp : Int
  gShowMode : Int
  gDrawCorrespondencesMode : Int
  gRansacThresh : ℚ
deriving DecidableEq, Repr

/-- The initial values of the globals, as in their declarations. -/
def initGlobals : Globals :=
  { gContextWidth := 0
    gContextHeight := 0
    contextWasUpdated := false
    imageZoom := 1
    videoWidth := 0
    videoHeight := 0
    videoZoom := 1
    gShowHelp := 1
    gShowMode := 1
    gDrawCorrespondencesMode := DRAW_CORRESPONDENCES_MODE_ALL
    gRansacThresh := 5 / 2 }

/-- The conversion `(int)x` of a floating value: rounding toward zero. -/
def truncToInt (q : ℚ) : Int :=
  if 0 ≤ q then Int.floor q else Int.ceil q

/-! ## `calcZoomToFit` -/

/-- The function `calcZoomToFit`: the smaller of the two axis ratios. -/
def calcZoomToFit (sourceSizeX sourceSizeY destSizeX destSizeY : Int) : ℚ :=
  let xzoom : ℚ := (destSizeX : ℚ) / (sourceSizeX : ℚ)
  let yzoom : ℚ := (destSizeY : ℚ) / (sourceSizeY : ℚ)
  if xzoom > yzoom then yzoom else xzoom

/-! ## `reshape` and the lazy initialisation of `main` -/

/-- The function `reshape`. -/
def reshape (w h : Int) (g : Globals) : Globals :=
  { g with gContextWidth := w, gContextHeight := h, contextWasUpdated := true }

/-- The block `if (contextWasUpdated) { ... }` of the main loop. The video size `vw`, `vh` is
what `arController->videoParameters` reports. -/
def lazyInit (refImageX refImageY vw vh : Int) (g : Globals) : Globals :=
  if g.contextWasUpdated then
    { g with
      imageZoom := calcZoomToFit refImageX refImageY (Int.tdiv g.gContextWidth 2) g.gContextHeight
      videoWidth := vw
      videoHeight := vh
      videoZoom := calcZoomToFit vw vh (Int.tdiv g.gContextWidth 2) g.gContextHeight
      contextWasUpdated := false }
  else g

/-! ## `keyboard` -/

/-- The function `keyboard`, on the key code of the pressed key. The result `none` is the call
of `quit(0)`, which ends the process. The call that hands `gRansacThresh` to the tracker and
the `printf` are not modelled. -/
def keyboard (key : Int) (g : Globals) : Option Globals :=
  if key = 0x1B ∨ key = 81 ∨ key = 113 then
    none
  else if key = 63 ∨ key = 47 then
    let gShowHelp := g.gShowHelp + 1
    some { g with gShowHelp := if gShowHelp > 1 then 0 else gShowHelp }
  else if key = 109 ∨ key = 77 then
    some { g with gShowMode := if g.gShowMode = 0 then 1 else 0 }
  else if key = 32 then
    let mode := g.gDrawCorrespondencesMode + 1
    some { g with
      gDrawCorrespondencesMode := if mode > DRAW_CORRESPONDENCES_MODE_ALL then 0 else mode }
  else if key = 45 then
    some { g with gRansacThresh := g.gRansacThresh - 1 / 2 }
  else if key = 61 ∨ key = 43 then
    some { g with gRansacThresh := g.gRansacThresh + 1 / 2 }
  else
    some g

/-- The state after `n` presses of the space key (key code 32), `none` once the process has
ended. -/
def pressSpace : Nat → Globals → Option Globals
  | 0, g => some g
  | n + 1, g => (keyboard 32 g).bind (pressSpace n)

/-! ## `drawCorrespondences` -/

/-- The arguments of a `glDrawArrays` call together with the vertex array registered by
`glVertexPointer(2, GL_FLOAT, 0, vertices)`. -/
structure DrawArrays where
  first : Int
  count : Int
  vertices : List (Option ℚ)
deriving DecidableEq, Repr

/-- The number of line segments a `glDrawArrays(GL_LINES, first, count)` call draws: one for
every two vertices. -/
def DrawArrays.segments (d : DrawArrays) : Int :=
  Int.tdiv d.count 2

/-- The assignment `vertices[k] = v`. The result `none` is a write outside the allocated
buffer. -/
def writeFloat (vertices : List (Option ℚ)) (k : Nat) (v : ℚ) : Option (List (Option ℚ)) :=
  if k < vertices.length then some (vertices.set k (some v)) else none

/-- The body of the loop of `drawCorrespondences` at index `i`, for the pair `p = imagePoints[i]`
and `q = videoPoints[i]`: four assignments. -/
def drawCorrespondencesBody (g : Globals) (i : Nat) (p q : Point2f)
    (vertices : List (Option ℚ)) : Option (List (Option ℚ)) := do
  let vertices ← writeFloat vertices (i * 4)
    (((Int.tdiv g.gContextWidth 2 : Int) : ℚ) + p.x * g.imageZoom)
  let vertices ← writeFloat vertices (i * 4 + 1) ((g.gContextHeight : ℚ) - p.y * g.imageZoom)
  let vertices ← writeFloat vertices (i * 4 + 2) (q.x * g.videoZoom)
  writeFloat vertices (i * 4 + 3) ((g.gContextHeight : ℚ) - q.y * g.videoZoom)

/-- The loop `for (i = ...; i < imagePoints.size() && i < videoPoints.size(); i++)` of
`drawCorrespondences`, from index `i` on, for at most `fuel` iterations. -/
def drawCorrespondencesLoop (g : Globals) (imagePoints videoPoints : List Point2f) :
    Nat → Nat → List (Option ℚ) → Option (List (Option ℚ))
  | 0, _, vertices => some vertices
  | fuel + 1, i, vertices =>
    if h : i < imagePoints.length ∧ i < videoPoints.length then
      (drawCorrespondencesBody g i (imagePoints.get ⟨i, h.1⟩) (videoPoints.get ⟨i, h.2⟩)
        vertices).bind (drawCorrespondencesLoop g imagePoints videoPoints fuel (i + 1))
    else some vertices

/-- The function `drawCorrespondences`: the buffer of `imagePoints.size()*2*2` floats is
allocated, filled by the loop and submitted by `glDrawArrays(GL_LINES, 0,
(int)imagePoints.size()*2)`. The loop runs at most `imagePoints.size()` times, which is the
fuel given. The result `none` is a write outside the buffer. -/
def drawCorrespondences (g : Globals) (imagePoints videoPoints : List Point2f) :
    Option DrawArrays :=
  (drawCorrespondencesLoop g imagePoints videoPoints imagePoints.length 0
    (List.replicate (imagePoints.length * 2 * 2) none)).map
    fun vertices => { first := 0, count := (imagePoints.length : Int) * 2, vertices := vertices }

/-! ## The viewport of `drawImageView` -/

/-- The array `viewport` computed by `drawImageView`: x, y, width, height. -/
def drawImageViewViewport (refImageX refImageY : Int) (g : Globals) : Int × Int × Int × Int :=
  let imageWidthZoomed := truncToInt ((refImageX : ℚ) * g.imageZoom)
  let imageHeightZoomed := truncToInt ((refImageY : ℚ) * g.imageZoom)
  (Int.tdiv g.gContextWidth 2, g.gContextHeight - imageHeightZoomed, imageWidthZoomed,
    imageHeightZoomed)

/-! ## The main loop -/

/-- An event delivered by `SDL_PollEvent`, as far as the main loop tells them apart. -/
inductive Event where
  /-- The event `SDL_QUIT`. -/
  | sdlQuit
  /-- The event `SDL_WINDOWEVENT_RESIZED` of the window; `w`, `h` is what `SDL_GL_GetDrawableSize`
  reports. -/
  | windowResized (w h : Int)
  /-- The event `SDL_KEYDOWN` with the key code. -/
  | keyDown (key : Int)
  /-- Any other event: the loop ignores it. -/
  | other
deriving DecidableEq, Repr

/-- The inner loop `while (SDL_PollEvent(&ev))` on the events that are pending. The result is
the globals and the flag `done`; `none` when `keyboard` quits the process. `SDL_QUIT` sets
`done` and leaves the inner loop. -/
def pollEvents : Globals → List Event → Option (Globals × Bool)
  | g, [] => some (g, false)
  | g, Event.sdlQuit :: _ => some (g, true)
  | g, Event.windowResized w h :: evs => pollEvents (reshape w h g) evs
  | g, Event.keyDown key :: evs => (keyboard key g).bind fun g1 => pollEvents g1 evs
  | g, Event.other :: evs => pollEvents g evs

/-- What one pass of the main loop meets: the pending events, the result `gotFrame` of
`arController->capture()`, and the video size that `arController->videoParameters` would
report. -/
structure Pass where
  events : List Event
  gotFrame : Bool
  videoWidth : Int
  videoHeight : Int
deriving DecidableEq, Repr

/-- The main loop `while (!done)` of `main`, run on the passes it makes. The result lists, for
every frame that is drawn, the globals at the point where `drawImageView` and
`drawCorrespondences` are reached, that is after the lazy initialisation block. A pass without
a captured frame draws nothing; the pass in which `SDL_QUIT` arrives is still completed. The
tracker calls are taken to succeed (their failure quits before anything is drawn). -/
def mainLoop (refImageX refImageY : Int) : Globals → List Pass → List Globals
  | _, [] => []
  | g, pass :: rest =>
    match pollEvents g pass.events with
    | none => []
    | some (g1, done) =>
      if pass.gotFrame then
        let g2 := lazyInit refImageX refImageY pass.videoWidth pass.videoHeight g1
        g2 :: (if done then [] else mainLoop refImageX refImageY g2 rest)
      else
        if done then [] else mainLoop refImageX refImageY g1 rest

/-- The run of `main` from the call `reshape(w, h)` that follows the creation of the OpenGL
context: the globals still have their initial values there. -/
def mainFromReshape (refImageX refImageY w h : Int) (passes : List Pass) : List Globals :=
  mainLoop refImageX refImageY (reshape w h initGlobals) passes

/-! ## `getImageFeature` -/

/-- A `cv::Mat` of type `CV_8UC1`: its size and its pixels. -/
structure Mat where
  cols : Int
  rows : Int
  data : List Nat
deriving DecidableEq, Repr

/-- What `getImageFeature` uses from the OCVT library and OpenCV, whose code is not in this
file: the constants `k_OCVTTemplateMatchingMaxPyrLevel` and `markerTemplateWidth`, the pixels
that `cv::pyrDown` computes, `OCVFeatureDetector::DetectFeatures`,
`HarrisDetector::FindCorners`, and `TrackingPointSelector` (construction from the corner
points, the level size, the template width and the reference image size, followed by
`GetAllFeatures`). -/
structure OCVT where
  k_OCVTTemplateMatchingMaxPyrLevel : Nat
  markerTemplateWidth : Int
  pyrDownData : Mat → List Nat
  DetectFeatures : Mat → List Point2f
  FindCorners : Mat → List Point2f
  GetAllFeatures : List Point2f → Int → Int → Int → Int → Int → List Point2f

/-- The call `cv::pyrDown(src, dst)` without a destination size: OpenCV then gives the result
the size `Size((src.cols+1)/2, (src.rows+1)/2)`. -/
def pyrDown (o : OCVT) (src : Mat) : Mat :=
  { cols := Int.tdiv (src.cols + 1) 2
    rows := Int.tdiv (src.rows + 1) 2
    data := o.pyrDownData src }

/-- What one pass of the template loop stores and prints for level `level`: the size of the
image of that level and `_templatePoints[level]`. -/
structure TemplateLevel where
  level : Nat
  cols : Int
  rows : Int
  templatePoints : List Point2f
deriving DecidableEq, Repr

/-- The loop `for (int i = 0; i <= k_OCVTTemplateMatchingMaxPyrLevel; i++)` of
`getImageFeature`, from index `i` on with the current `image`, for at most `fuel` passes. -/
def templateLoop (o : OCVT) (refImageX refImageY : Int) :
    Nat → Nat → Mat → List TemplateLevel
  | 0, _, _ => []
  | fuel + 1, i, image =>
    if i ≤ o.k_OCVTTemplateMatchingMaxPyrLevel then
      let image := if i > 0 then pyrDown o image else image
      let _cornerPoints := o.FindCorners image
      let _templatePoints := o.GetAllFeatures _cornerPoints image.cols image.rows
        o.markerTemplateWidth refImageX refImageY
      { level := i, cols := image.cols, rows := image.rows, templatePoints := _templatePoints } ::
        templateLoop o refImageX refImageY fuel (i + 1) image
    else []

/-- What `getImageFeature` leaves in `_featurePoints` and `_templatePoints`. -/
structure ImageFeature where
  featurePoints : List Point2f
  templateLevels : List TemplateLevel
deriving DecidableEq, Repr

/-- The function `getImageFeature` on the reference image `refImage` of size `refImageX` by
`refImageY`. The result is an `Except` so that an error signalled by the function could be
told from a result: the body has no `exit`, `quit`, `return` or `throw`, so every path ends in
`Except.ok`. The template loop makes `k_OCVTTemplateMatchingMaxPyrLevel + 1` passes, which is
the fuel given. -/
def getImageFeature (o : OCVT) (display_templates display_features : Bool)
    (refImageX refImageY : Int) (refImage : List Nat) : Except String ImageFeature :=
  if display_templates || display_features then
    let image : Mat := { cols := refImageX, rows := refImageY, data := refImage }
    let featurePoints := if display_features then o.DetectFeatures image else []
    let templateLevels :=
      if display_templates then
        templateLoop o refImageX refImageY (o.k_OCVTTemplateMatchingMaxPyrLevel + 1) 0 image
      else []
    Except.ok { featurePoints := featurePoints, templateLevels := templateLevels }
  else Except.ok { featurePoints := [], templateLevels := [] }

/-! ## The overlays of `drawImageView` and the outline of the tracked marker -/

/-- The `numBins` of `drawImageView`. -/
def numBins : Nat := 10

/-- Rounding of a rational to the nearest integer, a tie going to the even one. -/
def roundHalfEven (x : ℚ) : Int :=
  if x - (Int.floor x : ℚ) < 1 / 2 then Int.floor x
  else if 1 / 2 < x - (Int.floor x : ℚ) then Int.floor x + 1
  else if Int.floor x % 2 = 0 then Int.floor x
  else Int.floor x + 1

/-- The distance between neighbouring `float` (IEEE binary32) values around `q`: 24
significant bits, the exponent not below that of the smallest normal value. -/
def binary32Ulp (q : ℚ) : ℚ :=
  (2 : ℚ) ^ (max (Int.log 2 |q|) (-126) - 23)

/-- The `float` (IEEE binary32) nearest to `q`, a tie going to the even significand: the
result of a `float` operation, or of a conversion to `float`, whose exact value is `q`. Values
beyond the largest `float` are not modelled. -/
def roundToBinary32 (q : ℚ) : ℚ :=
  (roundHalfEven (q / binary32Ulp q) : ℚ) * binary32Ulp q

/-- The four vertices `vertices[0..3]` that `drawImageView` hands to
`glDrawArrays(GL_LINE_LOOP, 0, 4)` for the template point `p`: `x` and `y` are the `int`
variables of the loop body. In `int y = refImageY - p.y` the operand `refImageY` is converted
to `float`, the difference is a `float`, and that rounded difference is converted to `int`. -/
def templateVertices (refImageY : Int) (templateRadius : ℚ) (p : Point2f) : List (ℚ × ℚ) :=
  let x : Int := truncToInt p.x
  let y : Int := truncToInt (roundToBinary32 (roundToBinary32 (refImageY : ℚ) - p.y))
  [((x : ℚ) - templateRadius, (y : ℚ) - templateRadius),
   ((x : ℚ) - templateRadius, (y : ℚ) + templateRadius),
   ((x : ℚ) + templateRadius, (y : ℚ) + templateRadius),
   ((x : ℚ) + templateRadius, (y : ℚ) - templateRadius)]

/-- The block `if (display_templates) { ... }` of `drawImageView`: one line loop of four
vertices for each point of `_templatePoints[templatePyrLevel]`. The result `none` is a level
outside the array `_templatePoints`. The shift `markerTemplateWidth << templatePyrLevel` is
the product with `2 ^ templatePyrLevel` (no overflow of `int` is modelled). -/
def drawImageViewTemplates (markerTemplateWidth refImageY : Int) (templatePyrLevel : Nat)
    (_templatePoints : List (List Point2f)) : Option (List (List (ℚ × ℚ))) :=
  let templateRadius : ℚ := ((markerTemplateWidth * 2 ^ templatePyrLevel : Int) : ℚ) / 2
  (_templatePoints[templatePyrLevel]?).map fun points =>
    points.map (templateVertices refImageY templateRadius)

/-- A vertex array of two floats per vertex with the count given to `glDrawArrays`. -/
structure DrawArrays2 where
  count : Int
  vertices : List (ℚ × ℚ)
deriving DecidableEq, Repr

/-- The loop `for (int i = 0; i <= numBins; i++)` of `drawImageView`, from index `i` on, for
at most `fuel` passes: each pass writes the four vertices `i*4 .. i*4+3`. -/
def binLoop (refImageX refImageY : Int) : Nat → Nat → List (ℚ × ℚ)
  | 0, _ => []
  | fuel + 1, i =>
    if i ≤ numBins then
      (((refImageX * (i : Int) : Int) : ℚ) / (numBins : ℚ), 0) ::
      (((refImageX * (i : Int) : Int) : ℚ) / (numBins : ℚ), (refImageY : ℚ)) ::
      (0, ((refImageY * (i : Int) : Int) : ℚ) / (numBins : ℚ)) ::
      ((refImageX : ℚ), ((refImageY * (i : Int) : Int) : ℚ) / (numBins : ℚ)) ::
      binLoop refImageX refImageY fuel (i + 1)
    else []

/-- The block `if (display_bins) { ... }` of `drawImageView`: the vertices built by the loop,
which makes `numBins + 1` passes, and the call `glDrawArrays(GL_LINES, 0, (numBins + 1)*4)`. -/
def drawImageViewBins (refImageX refImageY : Int) : DrawArrays2 :=
  { count := ((numBins : Int) + 1) * 4
    vertices := binLoop refImageX refImageY (numBins + 1) 0 }

/-- The loop of `main` that draws the box around the tracked marker, from index `i` on, for
at most `fuel` passes, on `trackerViz->bounds`: the first corner that passes the test makes
one call of `drawQuadLoop` with the four corners and leaves the loop. Both operands of the
test read `bounds[i][0]`. The result lists the calls of `drawQuadLoop`. -/
def drawBoundsLoop (bounds : Fin 4 → ℚ × ℚ) : Nat → Nat → List (List (ℚ × ℚ))
  | 0, _ => []
  | fuel + 1, i =>
    if h : i < 4 then
      if (bounds ⟨i, h⟩).1 ≠ 0 ∨ (bounds ⟨i, h⟩).1 ≠ 0 then
        [List.ofFn bounds]
      else drawBoundsLoop bounds fuel (i + 1)
    else []

/-- The block `// Draw yellow box around tracked marker.` of `main`: the loop makes at most 4
passes, which is the fuel given. -/
def drawTrackedMarkerBox (bounds : Fin 4 → ℚ × ℚ) : List (List (ℚ × ℚ)) :=
  drawBoundsLoop bounds 4 0

/-! ## `processCommandLineOptions` -/

/-- The values that `-loglevel=` gives `arLogLevel`: `AR_LOG_LEVEL_DEBUG`, `AR_LOG_LEVEL_INFO`,
`AR_LOG_LEVEL_WARN`, `AR_LOG_LEVEL_ERROR`. -/
inductive LogLevel where
  | debug
  | info
  | warn
  | error
deriving DecidableEq, Repr

/-- The global variables that `processCommandLineOptions` writes. A `char *` that is `NULL`
is `none`. -/
structure Preferences where
  vconf : Option String
  cpara : Option String
  arLogLevel : LogLevel
  display_templates : Int
  display_features : Int
  display_bins : Int
  inputFilePath : Option String
  inputFileWidth : ℚ
deriving DecidableEq, Repr

/-- The values of the preferences before `processCommandLineOptions` runs, as in their
declarations; `vconf` depends on the platform and `arLogLevel` is set by the library. -/
def initPreferences (vconf : Option String) (arLogLevel : LogLevel) : Preferences :=
  { vconf := vconf
    cpara := none
    arLogLevel := arLogLevel
    display_templates := 1
    display_features := 1
    display_bins := 1
    inputFilePath := none
    inputFileWidth := 100 }

/-- How `processCommandLineOptions`, or a part of it, ends: it goes on with new preferences,
or the process exits in `usage`, or it exits after the version was printed. -/
inductive Outcome where
  | returned (p : Preferences)
  | usage
  | version
deriving DecidableEq, Repr

/-- The test `strncmp(arg, "-loglevel=", 10) == 0`. -/
def hasLoglevelPrefix (arg : String) : Prop :=
  arg.data.take 10 = "-loglevel=".data

instance (arg : String) : Decidable (hasLoglevelPrefix arg) := by
  unfold hasLoglevelPrefix
  infer_instance

/-- The string `&(arg[10])`. -/
def loglevelValue (arg : String) : String :=
  String.mk (arg.data.drop 10)

/-- The branch `if (!gotTwoPartOption) { ... }` of the loop of `processCommandLineOptions`
for the argument `arg`: the single-part options, and last the positional argument, converted
by `strtof` when `inputFilePath` is already set. -/
def singlePartOption (strtof : String → ℚ) (arg : String) (p : Preferences) : Outcome :=
  if arg = "--help" ∨ arg = "-help" ∨ arg = "-h" then
    Outcome.usage
  else if arg = "--version" ∨ arg = "-version" ∨ arg = "-v" then
    Outcome.version
  else if hasLoglevelPrefix arg then
    if loglevelValue arg = "DEBUG" then Outcome.returned { p with arLogLevel := LogLevel.debug }
    else if loglevelValue arg = "INFO" then
      Outcome.returned { p with arLogLevel := LogLevel.info }
    else if loglevelValue arg = "WARN" then
      Outcome.returned { p with arLogLevel := LogLevel.warn }
    else if loglevelValue arg = "ERROR" then
      Outcome.returned { p with arLogLevel := LogLevel.error }
    else Outcome.usage
  else if arg = "-templates" then Outcome.returned { p with display_templates := 1 }
  else if arg = "-notemplates" then Outcome.returned { p with display_templates := 0 }
  else if arg = "-features" then Outcome.returned { p with display_features := 1 }
  else if arg = "-nofeatures" then Outcome.returned { p with display_features := 0 }
  else if arg = "-bins" then Outcome.returned { p with display_bins := 1 }
  else if arg = "-nobins" then Outcome.returned { p with display_bins := 0 }
  else if p.inputFilePath.isNone then Outcome.returned { p with inputFilePath := some arg }
  else Outcome.returned { p with inputFileWidth := strtof arg }

/-- The block `if ((i + 1) < argc) { ... }` of the loop of `processCommandLineOptions`: the
flag `gotTwoPartOption`, the index `i` and the preferences after it. -/
def twoPartOption (argv : List String) (i : Nat) (hi : i < argv.length) (p : Preferences) :
    Bool × Nat × Preferences :=
  if h : i + 1 < argv.length then
    if argv.get ⟨i, hi⟩ = "--vconf" then
      (true, i + 1, { p with vconf := some (argv.get ⟨i + 1, h⟩) })
    else if argv.get ⟨i, hi⟩ = "--cpara" then
      (true, i + 1, { p with cpara := some (argv.get ⟨i + 1, h⟩) })
    else (false, i, p)
  else (false, i, p)

/-- The loop `while (i < argc)` of `processCommandLineOptions`, from index `i` on, for at
most `fuel` passes. -/
def processLoop (strtof : String → ℚ) (argv : List String) :
    Nat → Nat → Preferences → Outcome
  | 0, _, p => Outcome.returned p
  | fuel + 1, i, p =>
    if hi : i < argv.length then
      match twoPartOption argv i hi p with
      | (true, i1, p1) => processLoop strtof argv fuel (i1 + 1) p1
      | (false, i1, p1) =>
        match singlePartOption strtof (argv.get ⟨i, hi⟩) p1 with
        | Outcome.returned p2 => processLoop strtof argv fuel (i1 + 1) p2
        | Outcome.usage => Outcome.usage
        | Outcome.version => Outcome.version
    else Outcome.returned p

/-- The function `processCommandLineOptions` on `argv`, whose length is `argc`, with the
preferences `p` before the call. The loop starts at index 1 and every pass moves the index
on, so `argc` passes are enough fuel. The last statement calls `usage` when `inputFilePath`
is still `NULL`. -/
def processCommandLineOptions (strtof : String → ℚ) (argv : List String) (p : Preferences) :
    Outcome :=
  match processLoop strtof argv argv.length 1 p with
  | Outcome.returned p1 => if p1.inputFilePath.isNone then Outcome.usage else Outcome.returned p1
  | Outcome.usage => Outcome.usage
  | Outcome.version => Outcome.version

/-! ## Definitions used to state the properties -/

/-- The four floats that one pass of the loop of `drawCorrespondences` writes for the pair
`p`, `q`. -/
def pairVertices (g : Globals) (p q : Point2f) : List (Option ℚ) :=
  [some (((Int.tdiv g.gContextWidth 2 : Int) : ℚ) + p.x * g.imageZoom),
   some ((g.gContextHeight : ℚ) - p.y * g.imageZoom),
   some (q.x * g.videoZoom),
   some ((g.gContextHeight : ℚ) - q.y * g.videoZoom)]

/-- The floats written for the pairs of two lists, as far as the shorter list goes. -/
def writtenVertices (g : Globals) : List Point2f → List Point2f → List (Option ℚ)
  | p :: ps, q :: qs => pairVertices g p q ++ writtenVertices g ps qs
  | _, _ => []

/-- The zoom of the image view is the one for the current window size. -/
def zoomCurrent (refImageX refImageY : Int) (g : Globals) : Prop :=
  g.imageZoom = calcZoomToFit refImageX refImageY (Int.tdiv g.gContextWidth 2) g.gContextHeight

/-- The invariant of the main loop: a recomputation is pending or the zoom is current. -/
def zoomInvariant (refImageX refImageY : Int) (g : Globals) : Prop :=
  g.contextWasUpdated = true ∨ zoomCurrent refImageX refImageY g

/-- The size that `pyrDown` gives its result, from the size of its source: each dimension is
halved, rounding up. -/
def pyrDownSize (s : Int × Int) : Int × Int :=
  (Int.tdiv (s.1 + 1) 2, Int.tdiv (s.2 + 1) 2)

/-- What the template loop stores for level `k` when it works as intended on the image
`image`: the level is computed on the image that `pyrDown` has downsampled `k` times, and its
point set is what the selector makes of the corners found on that downsampled image. -/
def templateLevelOf (o : OCVT) (refImageX refImageY : Int) (image : Mat) (k : Nat) :
    TemplateLevel :=
  { level := k
    cols := ((pyrDown o)^[k] image).cols
    rows := ((pyrDown o)^[k] image).rows
    templatePoints := o.GetAllFeatures (o.FindCorners ((pyrDown o)^[k] image))
      ((pyrDown o)^[k] image).cols ((pyrDown o)^[k] image).rows
      o.markerTemplateWidth refImageX refImageY }

/-- The sizes of the levels that the template loop works on. -/
def levelSizes (levels : List TemplateLevel) : List (Int × Int) :=
  levels.map fun l => (l.cols, l.rows)

/-- Globals for evaluation: the state in which a frame of a 3x2 reference image and a 640x480
video is drawn in a 4x100 window. -/
def sampleGlobals : Globals :=
  lazyInit 3 2 640 480 (reshape 4 100 initGlobals)

/-- Globals of the scenario of an 800x600 reference image shown in the right half, 400x600, of
an 800x600 window: the state in which a frame is drawn. -/
def scenarioGlobals : Globals :=
  lazyInit 800 600 640 480 (reshape 800 600 initGlobals)

/-- An instance of the library functions for evaluation: maximum level `L`, template width 15,
and detectors that find nothing. -/
def sampleOCVT (L : Nat) : OCVT :=
  { k_OCVTTemplateMatchingMaxPyrLevel := L
    markerTemplateWidth := 15
    pyrDownData := fun _ => []
    DetectFeatures := fun _ => []
    FindCorners := fun _ => []
    GetAllFeatures := fun _ _ _ _ _ _ => [] }

/-- The inverse of the reference-to-screen map of `drawCorrespondences`, as the round-trip
property names it: a screen point is taken back to the reference image by undoing the offset
`gContextWidth/2`, the flip against `gContextHeight` and the zoom `imageZoom`. The program
has no such function; this is the map the property is stated with. -/
def screenToReference (g : Globals) (s : ℚ × ℚ) : Point2f :=
  { x := (s.1 - ((Int.tdiv g.gContextWidth 2 : Int) : ℚ)) / g.imageZoom
    y := ((g.gContextHeight : ℚ) - s.2) / g.imageZoom }

/-- The inverse of the video-to-screen map of `drawCorrespondences`, as the round-trip
property names it: the flip against `gContextHeight` and the zoom `videoZoom` are undone. The
program has no such function; this is the map the property is stated with. -/
def screenToVideo (g : Globals) (s : ℚ × ℚ) : Point2f :=
  { x := s.1 / g.videoZoom
    y := ((g.gContextHeight : ℚ) - s.2) / g.videoZoom }

/-- The four corners, in the order of a line loop, of the axis-aligned square with centre `c`
and half-extent `r`. -/
def squareAround (c : ℚ × ℚ) (r : ℚ) : List (ℚ × ℚ) :=
  [(c.1 - r, c.2 - r), (c.1 - r, c.2 + r), (c.1 + r, c.2 + r), (c.1 + r, c.2 - r)]

/-- Bounds of a tracked marker from the x and y coordinates of the four corners. -/
def boundsOf (xs ys : Fin 4 → ℚ) : Fin 4 → ℚ × ℚ :=
  fun i => (xs i, ys i)

/-- An option at which the process exits: a help option, a version option, or `-loglevel=`
with a value that is none of `DEBUG`, `INFO`, `WARN`, `ERROR`. -/
def isExitOption (arg : String) : Prop :=
  arg = "--help" ∨ arg = "-help" ∨ arg = "-h" ∨
  arg = "--version" ∨ arg = "-version" ∨ arg = "-v" ∨
  (hasLoglevelPrefix arg ∧ loglevelValue arg ≠ "DEBUG" ∧ loglevelValue arg ≠ "INFO" ∧
    loglevelValue arg ≠ "WARN" ∧ loglevelValue arg ≠ "ERROR")

/-- A recognised option: one of the options that `usage` lists. -/
def isRecognisedOption (arg : String) : Prop :=
  arg = "--vconf" ∨ arg = "--cpara" ∨
  arg = "--help" ∨ arg = "-help" ∨ arg = "-h" ∨
  arg = "--version" ∨ arg = "-version" ∨ arg = "-v" ∨
  hasLoglevelPrefix arg ∨
  arg = "-templates" ∨ arg = "-notemplates" ∨ arg = "-features" ∨ arg = "-nofeatures" ∨
  arg = "-bins" ∨ arg = "-nobins"

instance (arg : String) : Decidable (isExitOption arg) := by
  unfold isExitOption
  infer_instance

instance (arg : String) : Decidable (isRecognisedOption arg) := by
  unfold isRecognisedOption
  infer_instance

/-- The arguments that are left when every `--vconf` or `--cpara` that has an argument after
it is taken away together with that argument, the value it consumes. -/
def unconsumedArguments : List String → List String
  | [] => []
  | [a] => [a]
  | a :: b :: rest =>
    if a = "--vconf" ∨ a = "--cpara" then unconsumedArguments rest
    else a :: unconsumedArguments (b :: rest)

/-- The positional arguments: the arguments that are neither a recognised option nor the
value consumed by `--vconf` or `--cpara`. -/
def positionalArguments (args : List String) : List String :=
  (unconsumedArguments args).filter fun a => ¬ isRecognisedOption a

/-- The width that the positional arguments after the first give: the float parse of the last
of them, `inputFileWidth` as it was when there is none. -/
def widthOf (strtof : String → ℚ) (inputFileWidth : ℚ) (widths : List String) : ℚ :=
  match widths.getLast? with
  | some w => strtof w
  | none => inputFileWidth

/-- The loop of `processCommandLineOptions` as a recursion on the arguments that are still
to be read, `argv[i], ..., argv[argc-1]`. -/
def scanArguments (strtof : String → ℚ) : List String → Preferences → Outcome
  | [], p => Outcome.returned p
  | [a], p => singlePartOption strtof a p
  | a :: b :: rest, p =>
    if a = "--vconf" then scanArguments strtof rest { p with vconf := some b }
    else if a = "--cpara" then scanArguments strtof rest { p with cpara := some b }
    else
      match singlePartOption strtof a p with
      | Outcome.returned p1 => scanArguments strtof (b :: rest) p1
      | Outcome.usage => Outcome.usage
      | Outcome.version => Outcome.version

/-- The path and the width after the positional arguments `ps` were read in turn: the first
one read while the path is `NULL` becomes the path, every other one is parsed as the width. -/
def applyPositionals (strtof : String → ℚ) : Option String × ℚ → List String → Option String × ℚ
  | s, [] => s
  | s, a :: rest =>
    applyPositionals strtof (if s.1.isNone then (some a, s.2) else (s.1, strtof a)) rest

/-- A float parser for evaluation: it knows the string `80`. -/
def sampleStrtof (s : String) : ℚ :=
  if s = "80" then 80 else 0

/-! ## Theorems -/

/-! ### Auxiliary facts on `drawCorrespondences` -/

theorem writeFloat_at_length (pre rest : List (Option ℚ)) (c : Option ℚ) (k : Nat) (v : ℚ)
    (hk : pre.length = k) :
    writeFloat (pre ++ c :: rest) k v = some (pre ++ some v :: rest) := by
  subst hk
  simp [writeFloat]

theorem drawCorrespondencesBody_eq (g : Globals) (i : Nat) (p q : Point2f)
    (pre rest : List (Option ℚ)) (c0 c1 c2 c3 : Option ℚ) (h : pre.length = i * 4) :
    drawCorrespondencesBody g i p q (pre ++ c0 :: c1 :: c2 :: c3 :: rest) =
      some (pre ++ (pairVertices g p q ++ rest)) := by
  have e0 := writeFloat_at_length pre (c1 :: c2 :: c3 :: rest) c0 (i * 4)
    (((Int.tdiv g.gContextWidth 2 : Int) : ℚ) + p.x * g.imageZoom) h
  have e1 := writeFloat_at_length
    (pre ++ [some (((Int.tdiv g.gContextWidth 2 : Int) : ℚ) + p.x * g.imageZoom)])
    (c2 :: c3 :: rest) c1 (i * 4 + 1) ((g.gContextHeight : ℚ) - p.y * g.imageZoom)
    (by simp [h])
  have e2 := writeFloat_at_length
    (pre ++ [some (((Int.tdiv g.gContextWidth 2 : Int) : ℚ) + p.x * g.imageZoom),
      some ((g.gContextHeight : ℚ) - p.y * g.imageZoom)])
    (c3 :: rest) c2 (i * 4 + 2) (q.x * g.videoZoom) (by simp [h])
  have e3 := writeFloat_at_length
    (pre ++ [some (((Int.tdiv g.gContextWidth 2 : Int) : ℚ) + p.x * g.imageZoom),
      some ((g.gContextHeight : ℚ) - p.y * g.imageZoom), some (q.x * g.videoZoom)])
    rest c3 (i * 4 + 3) ((g.gContextHeight : ℚ) - q.y * g.videoZoom) (by simp [h])
  simp only [List.append_assoc, List.singleton_append, List.cons_append, List.nil_append]
    at e1 e2 e3
  simp only [drawCorrespondencesBody, bind, Option.bind, e0, e1, e2, e3, pairVertices,
    List.cons_append, List.nil_append]

theorem writtenVertices_nil_left (g : Globals) (qs : List Point2f) :
    writtenVertices g [] qs = [] := by
  simp [writtenVertices]

theorem writtenVertices_nil_right (g : Globals) (ps : List Point2f) :
    writtenVertices g ps [] = [] := by
  cases ps <;> simp [writtenVertices]

theorem replicate_four_step (n i : Nat) (h : i < n) :
    List.replicate ((n - i) * 4) (none : Option ℚ) =
      none :: none :: none :: none :: List.replicate ((n - (i + 1)) * 4) none := by
  have e : (n - i) * 4 = (n - (i + 1)) * 4 + 1 + 1 + 1 + 1 := by omega
  rw [e]
  simp [List.replicate_succ]

/-- The loop of `drawCorrespondences`, started at index `i` on a buffer whose first `i * 4`
cells are `pre` and whose other cells are unwritten, ends without a write outside the buffer:
it appends the floats of the pairs from `i` on and leaves the cells behind the shorter list
unwritten. -/
theorem drawCorrespondencesLoop_eq (g : Globals) (imagePoints videoPoints : List Point2f) :
    ∀ (fuel i : Nat) (pre : List (Option ℚ)), pre.length = i * 4 →
      i ≤ min imagePoints.length videoPoints.length → imagePoints.length - i ≤ fuel →
      drawCorrespondencesLoop g imagePoints videoPoints fuel i
          (pre ++ List.replicate ((imagePoints.length - i) * 4) none) =
        some (pre ++ (writtenVertices g (imagePoints.drop i) (videoPoints.drop i) ++
          List.replicate
            ((imagePoints.length - min imagePoints.length videoPoints.length) * 4) none)) := by
  intro fuel
  induction fuel with
  | zero =>
    intro i pre _ hi hfuel
    have hn : i = imagePoints.length := by omega
    have hm : min imagePoints.length videoPoints.length = imagePoints.length := by omega
    subst hn
    simp [drawCorrespondencesLoop, writtenVertices_nil_left, hm]
  | succ fuel ih =>
    intro i pre hpre hi hfuel
    by_cases hc : i < imagePoints.length ∧ i < videoPoints.length
    · have hstep := replicate_four_step imagePoints.length i hc.1
      have hbody := drawCorrespondencesBody_eq g i (imagePoints.get ⟨i, hc.1⟩)
        (videoPoints.get ⟨i, hc.2⟩) pre
        (List.replicate ((imagePoints.length - (i + 1)) * 4) none) none none none none hpre
      have hnext := ih (i + 1)
        (pre ++ pairVertices g (imagePoints.get ⟨i, hc.1⟩) (videoPoints.get ⟨i, hc.2⟩))
        (by simp [pairVertices, hpre]; omega) (by omega) (by omega)
      have hdi : imagePoints.drop i = imagePoints.get ⟨i, hc.1⟩ :: imagePoints.drop (i + 1) :=
        List.drop_eq_getElem_cons hc.1
      have hdv : videoPoints.drop i = videoPoints.get ⟨i, hc.2⟩ :: videoPoints.drop (i + 1) :=
        List.drop_eq_getElem_cons hc.2
      rw [drawCorrespondencesLoop, dif_pos hc, hstep, hbody, hdi, hdv]
      simp only [Option.bind, writtenVertices]
      rw [← List.append_assoc, hnext]
      simp only [List.append_assoc]
    · have hm : i = min imagePoints.length videoPoints.length := by omega
      have hw : writtenVertices g (imagePoints.drop i) (videoPoints.drop i) = [] := by
        by_cases hn : i < imagePoints.length
        · have hv : videoPoints.length ≤ i := by omega
          rw [List.drop_eq_nil_of_le hv]
          exact writtenVertices_nil_right g _
        · have hn1 : imagePoints.length ≤ i := by omega
          rw [List.drop_eq_nil_of_le hn1]
          exact writtenVertices_nil_left g _
      rw [drawCorrespondencesLoop, dif_neg hc, hw, ← hm]
      simp

/-- The call `drawCorrespondences` always ends without a write outside the buffer. It submits
`imagePoints.size()*2` vertices; the buffer holds the floats of the pairs as far as the
shorter list goes, and behind them cells that were never written. -/
theorem drawCorrespondences_eq (g : Globals) (imagePoints videoPoints : List Point2f) :
    drawCorrespondences g imagePoints videoPoints =
      some { first := 0
             count := (imagePoints.length : Int) * 2
             vertices := writtenVertices g imagePoints videoPoints ++
               List.replicate
                 ((imagePoints.length - min imagePoints.length videoPoints.length) * 4) none } := by
  have h := drawCorrespondencesLoop_eq g imagePoints videoPoints imagePoints.length 0 []
    (by simp) (by omega) (by omega)
  have e : imagePoints.length * 2 * 2 = (imagePoints.length - 0) * 4 := by omega
  simp only [List.nil_append, List.drop_zero] at h
  simp only [drawCorrespondences, e, h, Option.map]

/-- The four floats of pair `i` in the buffer that `drawCorrespondences` builds. -/
theorem writtenVertices_getElem? (g : Globals) (tail : List (Option ℚ)) :
    ∀ (imagePoints videoPoints : List Point2f) (i : Nat) (hi : i < imagePoints.length)
      (hv : i < videoPoints.length) (j : Nat), j < 4 →
      (writtenVertices g imagePoints videoPoints ++ tail)[i * 4 + j]? =
        (pairVertices g (imagePoints.get ⟨i, hi⟩) (videoPoints.get ⟨i, hv⟩))[j]? := by
  intro imagePoints
  induction imagePoints with
  | nil => intro _ _ hi; simp at hi
  | cons p ps ih =>
    intro videoPoints i hi hv j hj
    cases videoPoints with
    | nil => simp at hv
    | cons q qs =>
      cases i with
      | zero =>
        simp only [writtenVertices, List.append_assoc, Nat.zero_mul, Nat.zero_add]
        rw [List.getElem?_append_left (by simp [pairVertices]; omega)]
        rfl
      | succ i =>
        have hi1 : i < ps.length := by simpa using hi
        have hv1 : i < qs.length := by simpa using hv
        have e : (i + 1) * 4 + j = (pairVertices g p q).length + (i * 4 + j) := by
          simp [pairVertices]; omega
        simp only [writtenVertices, List.append_assoc]
        rw [e, List.getElem?_append_right (Nat.le_add_right _ _), Nat.add_sub_cancel_left]
        exact ih qs i hi1 hv1 j hj

/-- C1: for positive source and destination sizes `calcZoomToFit` is the minimum of the two
axis ratios, the zoomed source fits the destination on both axes, and it fills the destination
exactly on at least one axis. -/
theorem calcZoomToFit_fit (sw sh dw dh : Int) (hsw : 0 < sw) (hsh : 0 < sh)
    (hdw : 0 < dw) (hdh : 0 < dh) :
    calcZoomToFit sw sh dw dh = min ((dw : ℚ) / sw) ((dh : ℚ) / sh) ∧
    calcZoomToFit sw sh dw dh * sw ≤ dw ∧
    calcZoomToFit sw sh dw dh * sh ≤ dh ∧
    (calcZoomToFit sw sh dw dh * sw = dw ∨ calcZoomToFit sw sh dw dh * sh = dh) := by
  have hsw' : (0 : ℚ) < sw := by exact_mod_cast hsw
  have hsh' : (0 : ℚ) < sh := by exact_mod_cast hsh
  have hdw' : (0 : ℚ) < dw := by exact_mod_cast hdw
  have hdh' : (0 : ℚ) < dh := by exact_mod_cast hdh
  unfold calcZoomToFit
  simp only []
  split_ifs with h
  · have hle : (dh : ℚ) / sh ≤ (dw : ℚ) / sw := le_of_lt h
    refine ⟨(min_eq_right hle).symm, ?_, ?_, Or.inr ?_⟩
    · calc (dh : ℚ) / sh * sw ≤ (dw : ℚ) / sw * sw :=
            mul_le_mul_of_nonneg_right hle hsw'.le
        _ = dw := div_mul_cancel₀ _ hsw'.ne.symm
    · exact le_of_eq (div_mul_cancel₀ _ hsh'.ne.symm)
    · exact div_mul_cancel₀ _ hsh'.ne.symm
  · have hle : (dw : ℚ) / sw ≤ (dh : ℚ) / sh := not_lt.mp h
    refine ⟨(min_eq_left hle).symm, ?_, ?_, Or.inl ?_⟩
    · exact le_of_eq (div_mul_cancel₀ _ hsw'.ne.symm)
    · calc (dw : ℚ) / sw * sh ≤ (dh : ℚ) / sh * sh :=
            mul_le_mul_of_nonneg_right hle hsh'.le
        _ = dh := div_mul_cancel₀ _ hsh'.ne.symm
    · exact div_mul_cancel₀ _ hsw'.ne.symm

/-- Witness for C1 at an 800x600 source and a 400x600 destination. -/
theorem calcZoomToFit_fit_witness :
    calcZoomToFit 800 600 400 600 = min (((400 : Int) : ℚ) / (800 : Int)) (((600 : Int) : ℚ) / (600 : Int)) ∧
    calcZoomToFit 800 600 400 600 * (800 : Int) ≤ (400 : Int) ∧
    calcZoomToFit 800 600 400 600 * (600 : Int) ≤ (600 : Int) ∧
    (calcZoomToFit 800 600 400 600 * (800 : Int) = (400 : Int) ∨
      calcZoomToFit 800 600 400 600 * (600 : Int) = (600 : Int)) :=
  calcZoomToFit_fit 800 600 400 600 (by decide) (by decide) (by decide) (by decide)


/-- C2: with one image point and no video point `drawCorrespondences` still submits one line
segment, whose four floats were never written, so the number of segments drawn is not the
length of the shorter list. -/
theorem drawCorrespondences_empty_video_draws_segment (g : Globals) :
    ∃ d, drawCorrespondences g [⟨1, 1⟩] [] = some d ∧
      d.segments = 1 ∧ d.vertices = [none, none, none, none] ∧
      d.segments ≠ ((min ([⟨1, 1⟩] : List Point2f).length ([] : List Point2f).length : Nat) : Int) := by
  refine ⟨_, drawCorrespondences_eq g [⟨1, 1⟩] [], ?_, ?_, ?_⟩
  · simp [DrawArrays.segments]
  · simp [writtenVertices, List.replicate]
  · simp [DrawArrays.segments]

/-! ### The zoom at the points where a frame is drawn -/

theorem keyboard_zoomInvariant (refImageX refImageY key : Int) (g g1 : Globals)
    (hk : keyboard key g = some g1) (h : zoomInvariant refImageX refImageY g) :
    zoomInvariant refImageX refImageY g1 := by
  unfold keyboard at hk
  split_ifs at hk
  all_goals first
    | (cases hk; done)
    | (cases hk; exact h)

theorem pollEvents_zoomInvariant (refImageX refImageY : Int) :
    ∀ (evs : List Event) (g g1 : Globals) (done : Bool),
      pollEvents g evs = some (g1, done) → zoomInvariant refImageX refImageY g →
      zoomInvariant refImageX refImageY g1 := by
  intro evs
  induction evs with
  | nil =>
    intro g g1 done hp h
    simp only [pollEvents, Option.some.injEq, Prod.mk.injEq] at hp
    rw [← hp.1]; exact h
  | cons ev evs ih =>
    intro g g1 done hp h
    cases ev with
    | sdlQuit =>
      simp only [pollEvents, Option.some.injEq, Prod.mk.injEq] at hp
      rw [← hp.1]; exact h
    | windowResized w h1 =>
      simp only [pollEvents] at hp
      exact ih _ _ _ hp (Or.inl rfl)
    | keyDown key =>
      simp only [pollEvents] at hp
      cases hk : keyboard key g with
      | none => simp [hk] at hp
      | some g2 =>
        simp only [hk, Option.bind] at hp
        exact ih _ _ _ hp (keyboard_zoomInvariant refImageX refImageY key g g2 hk h)
    | other =>
      simp only [pollEvents] at hp
      exact ih _ _ _ hp h

theorem lazyInit_zoomCurrent (refImageX refImageY vw vh : Int) (g : Globals)
    (h : zoomInvariant refImageX refImageY g) :
    zoomCurrent refImageX refImageY (lazyInit refImageX refImageY vw vh g) := by
  unfold lazyInit
  split_ifs with hc
  · simp [zoomCurrent]
  · rcases h with h | h
    · exact absurd h hc
    · exact h

theorem mainLoop_zoomCurrent (refImageX refImageY : Int) :
    ∀ (passes : List Pass) (g : Globals), zoomInvariant refImageX refImageY g →
      ∀ f ∈ mainLoop refImageX refImageY g passes, zoomCurrent refImageX refImageY f := by
  intro passes
  induction passes with
  | nil => intro g _ f hf; simp [mainLoop] at hf
  | cons pass rest ih =>
    intro g h f hf
    rw [mainLoop] at hf
    cases hp : pollEvents g pass.events with
    | none => simp [hp] at hf
    | some r =>
      obtain ⟨g1, done⟩ := r
      have h1 := pollEvents_zoomInvariant refImageX refImageY _ _ _ _ hp h
      have h2 := lazyInit_zoomCurrent refImageX refImageY pass.videoWidth pass.videoHeight g1 h1
      simp only [hp] at hf
      by_cases hg : pass.gotFrame = true
      · simp only [hg, if_true, List.mem_cons] at hf
        rcases hf with hf | hf
        · rw [hf]; exact h2
        · by_cases hd : done = true
          · simp [hd] at hf
          · simp only [hd] at hf
            exact ih _ (Or.inr h2) f hf
      · simp only [hg] at hf
        by_cases hd : done = true
        · simp [hd] at hf
        · simp only [hd] at hf
          exact ih _ h1 f hf

/-- C3: in every run of the main loop that starts after the initial `reshape(w, h)` of `main`,
at every point where a frame is drawn `imageZoom` is `calcZoomToFit(refImageX, refImageY,
gContextWidth/2, gContextHeight)` for the window size of that moment. -/
theorem mainLoop_never_draws_stale_zoom (refImageX refImageY w h : Int) (passes : List Pass)
    (f : Globals) (hf : f ∈ mainFromReshape refImageX refImageY w h passes) :
    f.imageZoom =
      calcZoomToFit refImageX refImageY (Int.tdiv f.gContextWidth 2) f.gContextHeight :=
  mainLoop_zoomCurrent refImageX refImageY passes (reshape w h initGlobals) (Or.inl rfl) f hf

/-- Witness for C3: the frame drawn in a pass that follows a resize to 1000x500. -/
theorem mainLoop_never_draws_stale_zoom_witness :
    (lazyInit 800 600 640 480 (reshape 1000 500 (reshape 800 600 initGlobals))).imageZoom =
      calcZoomToFit 800 600
        (Int.tdiv
          (lazyInit 800 600 640 480 (reshape 1000 500 (reshape 800 600 initGlobals))).gContextWidth
          2)
        (lazyInit 800 600 640 480 (reshape 1000 500 (reshape 800 600 initGlobals))).gContextHeight :=
  mainLoop_never_draws_stale_zoom 800 600 800 600
    [{ events := [Event.windowResized 1000 500], gotFrame := true, videoWidth := 640,
       videoHeight := 480 }]
    (lazyInit 800 600 640 480 (reshape 1000 500 (reshape 800 600 initGlobals)))
    (by simp [mainFromReshape, mainLoop, pollEvents])


/-! ### The levels of the template loop -/

theorem pyrDown_size (o : OCVT) (image : Mat) :
    ((pyrDown o image).cols, (pyrDown o image).rows) = pyrDownSize (image.cols, image.rows) :=
  rfl

theorem templateLoop_succ (o : OCVT) (refImageX refImageY : Int) (fuel i : Nat) (image : Mat)
    (h : i ≤ o.k_OCVTTemplateMatchingMaxPyrLevel) :
    templateLoop o refImageX refImageY (fuel + 1) i image =
      { level := i
        cols := (if i > 0 then pyrDown o image else image).cols
        rows := (if i > 0 then pyrDown o image else image).rows
        templatePoints := o.GetAllFeatures
          (o.FindCorners (if i > 0 then pyrDown o image else image))
          (if i > 0 then pyrDown o image else image).cols
          (if i > 0 then pyrDown o image else image).rows
          o.markerTemplateWidth refImageX refImageY } ::
        templateLoop o refImageX refImageY fuel (i + 1)
          (if i > 0 then pyrDown o image else image) := by
  rw [templateLoop, if_pos h]

/-- From index `i > 0` on, every pass of the template loop halves the image before it works
on it. -/
theorem templateLoop_levels (o : OCVT) (refImageX refImageY : Int) :
    ∀ (fuel i : Nat) (image : Mat), 0 < i →
      i + fuel = o.k_OCVTTemplateMatchingMaxPyrLevel + 1 →
      levelSizes (templateLoop o refImageX refImageY fuel i image) =
          List.iterate pyrDownSize (pyrDownSize (image.cols, image.rows)) fuel ∧
        (templateLoop o refImageX refImageY fuel i image).map (fun l => l.level) =
          List.range' i fuel := by
  intro fuel
  induction fuel with
  | zero => intro i image _ _; simp [templateLoop, levelSizes, List.iterate]
  | succ fuel ih =>
    intro i image hi hfuel
    have hle : i ≤ o.k_OCVTTemplateMatchingMaxPyrLevel := by omega
    have hrec := ih (i + 1) (pyrDown o image) (by omega) (by omega)
    rw [pyrDown_size] at hrec
    rw [templateLoop_succ o refImageX refImageY fuel i image hle]
    simp only [gt_iff_lt, if_pos hi]
    refine ⟨?_, ?_⟩
    · rw [List.iterate, ← hrec.1]
      simp only [levelSizes, List.map_cons]
      rw [← pyrDown_size]
    · rw [List.range', ← hrec.2]
      simp only [List.map_cons]

/-- The template loop of `getImageFeature`, from its start: one level for each index
`0 .. k_OCVTTemplateMatchingMaxPyrLevel`, the first on the image itself and each further one
on the `pyrDown` of the image of the level before. -/
theorem templateLoop_from_start (o : OCVT) (refImageX refImageY : Int) (image : Mat) :
    levelSizes (templateLoop o refImageX refImageY
        (o.k_OCVTTemplateMatchingMaxPyrLevel + 1) 0 image) =
        List.iterate pyrDownSize (image.cols, image.rows)
          (o.k_OCVTTemplateMatchingMaxPyrLevel + 1) ∧
      (templateLoop o refImageX refImageY
        (o.k_OCVTTemplateMatchingMaxPyrLevel + 1) 0 image).map (fun l => l.level) =
        List.range (o.k_OCVTTemplateMatchingMaxPyrLevel + 1) := by
  have hrec := templateLoop_levels o refImageX refImageY
    o.k_OCVTTemplateMatchingMaxPyrLevel 1 image (by omega) (by omega)
  rw [templateLoop_succ o refImageX refImageY _ 0 image (Nat.zero_le _)]
  simp only [gt_iff_lt, Nat.lt_irrefl, if_false]
  refine ⟨?_, ?_⟩
  · rw [List.iterate, ← hrec.1]
    simp only [levelSizes, List.map_cons]
  · rw [List.range_eq_range', List.range', ← hrec.2]
    simp only [List.map_cons]

theorem pyrDownSize_pos (s : Int × Int) (h : 0 < s.1 ∧ 0 < s.2) :
    0 < (pyrDownSize s).1 ∧ 0 < (pyrDownSize s).2 := by
  obtain ⟨h1, h2⟩ := h
  simp only [pyrDownSize]
  rw [Int.tdiv_eq_ediv (by omega) (by omega), Int.tdiv_eq_ediv (by omega) (by omega)]
  omega

theorem iterate_pyrDownSize_pos (n : Nat) :
    ∀ (s : Int × Int), 0 < s.1 ∧ 0 < s.2 →
      ∀ t ∈ List.iterate pyrDownSize s n, 0 < t.1 ∧ 0 < t.2 := by
  induction n with
  | zero => intro s _ t ht; simp [List.iterate] at ht
  | succ n ih =>
    intro s hs t ht
    simp only [List.iterate, List.mem_cons] at ht
    rcases ht with ht | ht
    · rw [ht]; exact hs
    · exact ih _ (pyrDownSize_pos s hs) t ht


theorem getImageFeature_templates (o : OCVT) (display_features : Bool)
    (refImageX refImageY : Int) (refImage : List Nat) :
    getImageFeature o true display_features refImageX refImageY refImage =
      Except.ok
        { featurePoints :=
            if display_features then
              o.DetectFeatures { cols := refImageX, rows := refImageY, data := refImage }
            else []
          templateLevels := templateLoop o refImageX refImageY
            (o.k_OCVTTemplateMatchingMaxPyrLevel + 1) 0
            { cols := refImageX, rows := refImageY, data := refImage } } := by
  simp [getImageFeature]

/-- C5, the claim as stated fails: a 4x4 image is smaller than `2^3`, yet with maximum level 3
`getImageFeature` signals no error and stores a point set for each of the four levels, of
sizes 4x4, 2x2, 1x1 and 1x1. -/
theorem getImageFeature_small_image_not_refused :
    (4 : Int) < 2 ^ 3 ∧
    ∃ r, getImageFeature (sampleOCVT 3) true true 4 4 [] = Except.ok r ∧
      r.templateLevels.length = 4 ∧
      levelSizes r.templateLevels = [(4, 4), (2, 2), (1, 1), (1, 1)] := by
  refine ⟨by decide, _, getImageFeature_templates (sampleOCVT 3) true 4 4 [], ?_, ?_⟩
  · decide
  · decide

/-- From index `i > 0` on, with the image of level `i - 1` at hand, the template loop stores
for every level the result on the image downsampled once more. -/
theorem templateLoop_eq_levels (o : OCVT) (refImageX refImageY : Int) (image : Mat) :
    ∀ (fuel i : Nat), 0 < i → i + fuel = o.k_OCVTTemplateMatchingMaxPyrLevel + 1 →
      templateLoop o refImageX refImageY fuel i ((pyrDown o)^[i - 1] image) =
        (List.range' i fuel).map (templateLevelOf o refImageX refImageY image) := by
  intro fuel
  induction fuel with
  | zero => intro i _ _; simp [templateLoop]
  | succ fuel ih =>
    intro i hi hfuel
    have hle : i ≤ o.k_OCVTTemplateMatchingMaxPyrLevel := by omega
    have himg : pyrDown o ((pyrDown o)^[i - 1] image) = (pyrDown o)^[i] image := by
      obtain ⟨j, rfl⟩ : ∃ j, i = j + 1 := ⟨i - 1, by omega⟩
      rw [Nat.add_sub_cancel]
      exact (Function.iterate_succ_apply' (pyrDown o) j image).symm
    have hrec := ih (i + 1) (by omega) (by omega)
    rw [Nat.add_sub_cancel] at hrec
    rw [templateLoop_succ o refImageX refImageY fuel i _ hle]
    simp only [gt_iff_lt, if_pos hi, himg, hrec, List.range', List.map_cons, templateLevelOf]

/-- The template loop of `getImageFeature` from its start: for every level `k` in
`0 .. k_OCVTTemplateMatchingMaxPyrLevel` it stores the result on the image downsampled `k`
times. -/
theorem templateLoop_eq_levels_from_start (o : OCVT) (refImageX refImageY : Int)
    (image : Mat) :
    templateLoop o refImageX refImageY (o.k_OCVTTemplateMatchingMaxPyrLevel + 1) 0 image =
      (List.range (o.k_OCVTTemplateMatchingMaxPyrLevel + 1)).map
        (templateLevelOf o refImageX refImageY image) := by
  have hrec := templateLoop_eq_levels o refImageX refImageY image
    o.k_OCVTTemplateMatchingMaxPyrLevel 1 (by omega) (by omega)
  simp only [Nat.sub_self, Function.iterate_zero, id_eq] at hrec
  rw [templateLoop_succ o refImageX refImageY _ 0 image (Nat.zero_le _)]
  simp only [gt_iff_lt, Nat.lt_irrefl, if_false, hrec, List.range_eq_range', List.range',
    List.map_cons, templateLevelOf, Function.iterate_zero, id_eq]

/-- C5 as amended: `getImageFeature` makes no check of the image size against the maximum
level `L` and has no error exit: for every reference image, also one smaller than `2^L`, it
returns normally, and with templates enabled it downsamples at every level `1 .. L` and stores
a point set for each of the `L + 1` levels: level `k` is computed on the image that `pyrDown`
has downsampled `k` times, the image of level `k + 1` being the `pyrDown` of the image of
level `k`, and its point set is what the selector makes of the corners found on that image.
As `pyrDown` rounds the halved size up, no level of an image of positive width and height has
a zero dimension. -/
theorem getImageFeature_never_refuses (o : OCVT) (display_templates display_features : Bool)
    (refImageX refImageY : Int) (refImage : List Nat) :
    (∃ r, getImageFeature o display_templates display_features refImageX refImageY refImage =
      Except.ok r) ∧
    (∃ r, getImageFeature o true display_features refImageX refImageY refImage = Except.ok r ∧
      r.templateLevels.length = o.k_OCVTTemplateMatchingMaxPyrLevel + 1 ∧
      r.templateLevels =
        (List.range (o.k_OCVTTemplateMatchingMaxPyrLevel + 1)).map
          (templateLevelOf o refImageX refImageY
            { cols := refImageX, rows := refImageY, data := refImage }) ∧
      (∀ k : Nat,
        (pyrDown o)^[k + 1] { cols := refImageX, rows := refImageY, data := refImage } =
          pyrDown o
            ((pyrDown o)^[k] { cols := refImageX, rows := refImageY, data := refImage })) ∧
      levelSizes r.templateLevels =
        List.iterate pyrDownSize (refImageX, refImageY)
          (o.k_OCVTTemplateMatchingMaxPyrLevel + 1) ∧
      (0 < refImageX → 0 < refImageY → ∀ l ∈ r.templateLevels, 0 < l.cols ∧ 0 < l.rows)) := by
  refine ⟨?_, _, getImageFeature_templates o display_features refImageX refImageY refImage,
    ?_, ?_, ?_, ?_, ?_⟩
  · unfold getImageFeature
    split_ifs <;> exact ⟨_, rfl⟩
  · have h := (templateLoop_from_start o refImageX refImageY
      { cols := refImageX, rows := refImageY, data := refImage }).2
    have hl := congrArg List.length h
    simpa using hl
  · exact templateLoop_eq_levels_from_start o refImageX refImageY
      { cols := refImageX, rows := refImageY, data := refImage }
  · intro k
    exact Function.iterate_succ_apply' (pyrDown o) k _
  · exact (templateLoop_from_start o refImageX refImageY
      { cols := refImageX, rows := refImageY, data := refImage }).1
  · intro hx hy l hl
    have h := (templateLoop_from_start o refImageX refImageY
      { cols := refImageX, rows := refImageY, data := refImage }).1
    have hmem : (l.cols, l.rows) ∈ levelSizes (templateLoop o refImageX refImageY
        (o.k_OCVTTemplateMatchingMaxPyrLevel + 1) 0
        { cols := refImageX, rows := refImageY, data := refImage }) :=
      List.mem_map_of_mem (fun l => (l.cols, l.rows)) hl
    rw [h] at hmem
    exact iterate_pyrDownSize_pos _ (refImageX, refImageY) ⟨hx, hy⟩ _ hmem

/-- Witness for C5 at a 4x4 image with maximum level 3: the four levels are those of the
image downsampled 0, 1, 2 and 3 times, and all have a positive width and height. -/
theorem getImageFeature_never_refuses_witness :
    (∃ r, getImageFeature (sampleOCVT 3) true true 4 4 [] = Except.ok r) ∧
    (∃ r, getImageFeature (sampleOCVT 3) true true 4 4 [] = Except.ok r ∧
      r.templateLevels.length = (sampleOCVT 3).k_OCVTTemplateMatchingMaxPyrLevel + 1 ∧
      r.templateLevels =
        (List.range ((sampleOCVT 3).k_OCVTTemplateMatchingMaxPyrLevel + 1)).map
          (templateLevelOf (sampleOCVT 3) 4 4 { cols := 4, rows := 4, data := [] }) ∧
      (∀ k : Nat,
        (pyrDown (sampleOCVT 3))^[k + 1] { cols := 4, rows := 4, data := [] } =
          pyrDown (sampleOCVT 3)
            ((pyrDown (sampleOCVT 3))^[k] { cols := 4, rows := 4, data := [] })) ∧
      levelSizes r.templateLevels =
        List.iterate pyrDownSize (4, 4)
          ((sampleOCVT 3).k_OCVTTemplateMatchingMaxPyrLevel + 1) ∧
      ((0 : Int) < 4 → (0 : Int) < 4 → ∀ l ∈ r.templateLevels, 0 < l.cols ∧ 0 < l.rows)) :=
  getImageFeature_never_refuses (sampleOCVT 3) true true 4 4 []


/-! ### The endpoints of a correspondence line -/

/-- The four floats that `drawCorrespondences` submits for the pair `i`, when both lists have
an element `i`. -/
theorem drawCorrespondences_pair (g : Globals) (imagePoints videoPoints : List Point2f)
    (i : Nat) (hi : i < imagePoints.length) (hv : i < videoPoints.length) :
    ∃ d, drawCorrespondences g imagePoints videoPoints = some d ∧
      d.vertices[i * 4]? =
        some (some (((Int.tdiv g.gContextWidth 2 : Int) : ℚ) +
          (imagePoints.get ⟨i, hi⟩).x * g.imageZoom)) ∧
      d.vertices[i * 4 + 1]? =
        some (some ((g.gContextHeight : ℚ) - (imagePoints.get ⟨i, hi⟩).y * g.imageZoom)) ∧
      d.vertices[i * 4 + 2]? = some (some ((videoPoints.get ⟨i, hv⟩).x * g.videoZoom)) ∧
      d.vertices[i * 4 + 3]? =
        some (some ((g.gContextHeight : ℚ) - (videoPoints.get ⟨i, hv⟩).y * g.videoZoom)) := by
  refine ⟨_, drawCorrespondences_eq g imagePoints videoPoints, ?_, ?_, ?_, ?_⟩
  · have h := writtenVertices_getElem? g
      (List.replicate
        ((imagePoints.length - min imagePoints.length videoPoints.length) * 4) none)
      imagePoints videoPoints i hi hv 0 (by omega)
    simpa [pairVertices] using h
  · have h := writtenVertices_getElem? g
      (List.replicate
        ((imagePoints.length - min imagePoints.length videoPoints.length) * 4) none)
      imagePoints videoPoints i hi hv 1 (by omega)
    simpa [pairVertices] using h
  · have h := writtenVertices_getElem? g
      (List.replicate
        ((imagePoints.length - min imagePoints.length videoPoints.length) * 4) none)
      imagePoints videoPoints i hi hv 2 (by omega)
    simpa [pairVertices] using h
  · have h := writtenVertices_getElem? g
      (List.replicate
        ((imagePoints.length - min imagePoints.length videoPoints.length) * 4) none)
      imagePoints videoPoints i hi hv 3 (by omega)
    simpa [pairVertices] using h

theorem truncToInt_frac (q : ℚ) (h : 0 ≤ q) :
    0 ≤ q - (truncToInt q : ℚ) ∧ q - (truncToInt q : ℚ) < 1 := by
  simp only [truncToInt, if_pos h]
  have h1 := Int.floor_le q
  have h2 := Int.lt_floor_add_one q
  constructor <;> linarith


theorem calcZoomToFit_3_2_2_100 : calcZoomToFit 3 2 2 100 = 2 / 3 := by
  norm_num [calcZoomToFit]

theorem truncToInt_four_thirds : truncToInt (4 / 3) = 1 := by
  have h : (0 : ℚ) ≤ 4 / 3 := by norm_num
  rw [truncToInt, if_pos h, Int.floor_eq_iff]
  norm_num

/-- C6, the claim as stated fails: for a 3x2 reference image in a 4x100 window the zoom is
2/3, the image viewport has its origin at y = 99, and the reference endpoint of the point
(0, 0) is drawn at y = 100, not at `99 + (2 - 0) * 2/3`. -/
theorem drawCorrespondences_reference_endpoint_off_viewport :
    sampleGlobals.imageZoom = 2 / 3 ∧
    (drawImageViewViewport 3 2 sampleGlobals).2.1 = 99 ∧
    ∃ d, drawCorrespondences sampleGlobals
        [⟨0, 0⟩] [⟨0, 0⟩] = some d ∧
      d.vertices[1]? = some (some 100) ∧
      d.vertices[1]? ≠ some (some
        (((drawImageViewViewport 3 2
            sampleGlobals).2.1 : ℚ) +
          (((2 : Int) : ℚ) - 0) *
            sampleGlobals.imageZoom)) := by
  have hz : sampleGlobals.imageZoom = 2 / 3 := by
    have e : Int.tdiv 4 2 = 2 := by decide
    simp [sampleGlobals, lazyInit, reshape, initGlobals, e, calcZoomToFit_3_2_2_100]
  have hh : sampleGlobals.gContextHeight = 100 := by
    simp [sampleGlobals, lazyInit, reshape, initGlobals]
  have hy : (drawImageViewViewport 3 2
      sampleGlobals).2.1 = 99 := by
    have e : (((2 : Int) : ℚ)) * (2 / 3) = 4 / 3 := by norm_num
    simp only [drawImageViewViewport, hz, hh, e, truncToInt_four_thirds]
    norm_num
  obtain ⟨d, hd, -, h1, -, -⟩ := drawCorrespondences_pair
    sampleGlobals [⟨0, 0⟩] [⟨0, 0⟩] 0
    (by simp) (by simp)
  refine ⟨hz, hy, d, hd, ?_, ?_⟩
  · rw [show (1 : Nat) = 0 * 4 + 1 from rfl, h1, hh]
    simp
  · rw [show (1 : Nat) = 0 * 4 + 1 from rfl, h1, hh, hy, hz]
    norm_num

/-- C6 as amended: for every pair `i` that both lists have, with `z = imageZoom` and `(ox, oy)`
the origin of the viewport of `drawImageView`, the reference endpoint computed by
`drawCorrespondences` is `(ox + x*z, gContextHeight - y*z)`, which is
`(ox + x*z, oy + (refImageY - y)*z - f)` for `f = refImageY*z - trunc(refImageY*z)`, the
fraction of a pixel by which `drawImageView` truncates the zoomed image height. So the
endpoint is at `(ox + x*z, oy + (refImageY - y)*z)` exactly when `refImageY*z` is a whole
number, and for `refImageY*z ≥ 0` it is less than one pixel below that. -/
theorem drawCorrespondences_reference_endpoint (refImageX refImageY : Int) (g : Globals)
    (imagePoints videoPoints : List Point2f) (i : Nat) (hi : i < imagePoints.length)
    (hv : i < videoPoints.length) :
    ∃ d, drawCorrespondences g imagePoints videoPoints = some d ∧
      d.vertices[i * 4]? =
        some (some (((drawImageViewViewport refImageX refImageY g).1 : ℚ) +
          (imagePoints.get ⟨i, hi⟩).x * g.imageZoom)) ∧
      d.vertices[i * 4 + 1]? =
        some (some (((drawImageViewViewport refImageX refImageY g).2.1 : ℚ) +
          ((refImageY : ℚ) - (imagePoints.get ⟨i, hi⟩).y) * g.imageZoom -
          ((refImageY : ℚ) * g.imageZoom -
            (truncToInt ((refImageY : ℚ) * g.imageZoom) : ℚ)))) ∧
      (d.vertices[i * 4 + 1]? =
          some (some (((drawImageViewViewport refImageX refImageY g).2.1 : ℚ) +
            ((refImageY : ℚ) - (imagePoints.get ⟨i, hi⟩).y) * g.imageZoom)) ↔
        (truncToInt ((refImageY : ℚ) * g.imageZoom) : ℚ) = (refImageY : ℚ) * g.imageZoom) ∧
      (0 ≤ (refImageY : ℚ) * g.imageZoom →
        0 ≤ (refImageY : ℚ) * g.imageZoom - (truncToInt ((refImageY : ℚ) * g.imageZoom) : ℚ) ∧
        (refImageY : ℚ) * g.imageZoom - (truncToInt ((refImageY : ℚ) * g.imageZoom) : ℚ) < 1) := by
  obtain ⟨d, hd, h0, h1, -, -⟩ := drawCorrespondences_pair g imagePoints videoPoints i hi hv
  refine ⟨d, hd, ?_, ?_, ?_, truncToInt_frac _⟩
  · rw [h0]; rfl
  · rw [h1]
    simp only [drawImageViewViewport, Int.cast_sub, Option.some.injEq]
    ring
  · rw [h1]
    simp only [drawImageViewViewport, Int.cast_sub, Option.some.injEq]
    constructor
    · intro h; linarith
    · intro h; linarith

/-- Witness for C6: a 3x2 reference image in a 4x100 window, one pair of points. -/
theorem drawCorrespondences_reference_endpoint_witness :
    ∃ d, drawCorrespondences sampleGlobals [⟨1, 1⟩] [⟨5, 7⟩] = some d ∧
      d.vertices[0 * 4]? =
        some (some (((drawImageViewViewport 3 2 sampleGlobals).1 : ℚ) +
          (([⟨1, 1⟩] : List Point2f).get ⟨0, by simp⟩).x * sampleGlobals.imageZoom)) ∧
      d.vertices[0 * 4 + 1]? =
        some (some (((drawImageViewViewport 3 2 sampleGlobals).2.1 : ℚ) +
          (((2 : Int) : ℚ) - (([⟨1, 1⟩] : List Point2f).get ⟨0, by simp⟩).y) *
            sampleGlobals.imageZoom -
          (((2 : Int) : ℚ) * sampleGlobals.imageZoom -
            (truncToInt (((2 : Int) : ℚ) * sampleGlobals.imageZoom) : ℚ)))) ∧
      (d.vertices[0 * 4 + 1]? =
          some (some (((drawImageViewViewport 3 2 sampleGlobals).2.1 : ℚ) +
            (((2 : Int) : ℚ) - (([⟨1, 1⟩] : List Point2f).get ⟨0, by simp⟩).y) *
              sampleGlobals.imageZoom)) ↔
        (truncToInt (((2 : Int) : ℚ) * sampleGlobals.imageZoom) : ℚ) =
          ((2 : Int) : ℚ) * sampleGlobals.imageZoom) ∧
      (0 ≤ ((2 : Int) : ℚ) * sampleGlobals.imageZoom →
        0 ≤ ((2 : Int) : ℚ) * sampleGlobals.imageZoom -
            (truncToInt (((2 : Int) : ℚ) * sampleGlobals.imageZoom) : ℚ) ∧
        ((2 : Int) : ℚ) * sampleGlobals.imageZoom -
            (truncToInt (((2 : Int) : ℚ) * sampleGlobals.imageZoom) : ℚ) < 1) :=
  drawCorrespondences_reference_endpoint 3 2 sampleGlobals [⟨1, 1⟩] [⟨5, 7⟩] 0
    (by simp) (by simp)

/-- C7, the claim as stated fails: for the pair with video point (10, 20) in the sample window
(height 100, video zoom 1/320) the screen y of the video endpoint is the window height minus
`y * videoZoom`, that is `100 - 20 * (1/320)`. -/
theorem drawCorrespondences_video_endpoint_is_flipped :
    ∃ d, drawCorrespondences sampleGlobals [⟨0, 0⟩] [⟨10, 20⟩] = some d ∧
      d.vertices[3]? =
        some (some ((sampleGlobals.gContextHeight : ℚ) - 20 * sampleGlobals.videoZoom)) ∧
      sampleGlobals.gContextHeight = 100 ∧ sampleGlobals.videoZoom = 1 / 320 := by
  obtain ⟨d, hd, -, -, -, h3⟩ := drawCorrespondences_pair
    sampleGlobals [⟨0, 0⟩] [⟨10, 20⟩] 0 (by simp) (by simp)
  refine ⟨d, hd, ?_, ?_, ?_⟩
  · rw [show (3 : Nat) = 0 * 4 + 3 from rfl, h3]
    simp
  · simp [sampleGlobals, lazyInit, reshape, initGlobals]
  · have e : Int.tdiv 4 2 = 2 := by decide
    simp only [sampleGlobals, lazyInit, reshape, initGlobals, e, if_true]
    norm_num [calcZoomToFit]

/-- C7 as amended: `drawCorrespondences` applies the vertical flip to both endpoints of every
pair: the screen y of the reference endpoint is `gContextHeight - y * imageZoom` and the
screen y of the video endpoint is `gContextHeight - y * videoZoom`. -/
theorem drawCorrespondences_flips_both_endpoints (g : Globals)
    (imagePoints videoPoints : List Point2f) (i : Nat) (hi : i < imagePoints.length)
    (hv : i < videoPoints.length) :
    ∃ d, drawCorrespondences g imagePoints videoPoints = some d ∧
      d.vertices[i * 4 + 1]? =
        some (some ((g.gContextHeight : ℚ) - (imagePoints.get ⟨i, hi⟩).y * g.imageZoom)) ∧
      d.vertices[i * 4 + 3]? =
        some (some ((g.gContextHeight : ℚ) - (videoPoints.get ⟨i, hv⟩).y * g.videoZoom)) := by
  obtain ⟨d, hd, -, h1, -, h3⟩ := drawCorrespondences_pair g imagePoints videoPoints i hi hv
  exact ⟨d, hd, h1, h3⟩

/-- Witness for C7: one pair of points in the sample window. -/
theorem drawCorrespondences_flips_both_endpoints_witness :
    ∃ d, drawCorrespondences sampleGlobals [⟨1, 1⟩] [⟨5, 7⟩] = some d ∧
      d.vertices[0 * 4 + 1]? =
        some (some ((sampleGlobals.gContextHeight : ℚ) -
          (([⟨1, 1⟩] : List Point2f).get ⟨0, by simp⟩).y * sampleGlobals.imageZoom)) ∧
      d.vertices[0 * 4 + 3]? =
        some (some ((sampleGlobals.gContextHeight : ℚ) -
          (([⟨5, 7⟩] : List Point2f).get ⟨0, by simp⟩).y * sampleGlobals.videoZoom)) :=
  drawCorrespondences_flips_both_endpoints sampleGlobals [⟨1, 1⟩] [⟨5, 7⟩] 0
    (by simp) (by simp)


/-! ### The scenario of the 800x600 reference image -/

theorem truncToInt_intCast (n : Int) : truncToInt (n : ℚ) = n := by
  unfold truncToInt
  split_ifs
  · exact Int.floor_intCast n
  · exact Int.ceil_intCast n

theorem calcZoomToFit_800_600_400_600 : calcZoomToFit 800 600 400 600 = 1 / 2 := by
  norm_num [calcZoomToFit]

theorem scenarioGlobals_eq :
    scenarioGlobals.imageZoom = 1 / 2 ∧ scenarioGlobals.gContextWidth = 800 ∧
      scenarioGlobals.gContextHeight = 600 := by
  have e : Int.tdiv 800 2 = 400 := by decide
  simp [scenarioGlobals, lazyInit, reshape, initGlobals, e, calcZoomToFit_800_600_400_600]

theorem scenarioGlobals_viewport :
    drawImageViewViewport 800 600 scenarioGlobals = (400, 300, 400, 300) := by
  obtain ⟨hz, hw, hh⟩ := scenarioGlobals_eq
  have e : Int.tdiv 800 2 = 400 := by decide
  have e1 : (((800 : Int) : ℚ)) * (1 / 2) = ((400 : Int) : ℚ) := by norm_num
  have e2 : (((600 : Int) : ℚ)) * (1 / 2) = ((300 : Int) : ℚ) := by norm_num
  simp only [drawImageViewViewport, hz, hw, hh, e, e1, e2, truncToInt_intCast]
  norm_num

theorem scenarioGlobals_endpoint :
    ∃ d, drawCorrespondences scenarioGlobals [⟨100, 50⟩] [⟨0, 0⟩] = some d ∧
      d.vertices[0]? = some (some 450) ∧ d.vertices[1]? = some (some 575) := by
  obtain ⟨hz, hw, hh⟩ := scenarioGlobals_eq
  have e : Int.tdiv 800 2 = 400 := by decide
  obtain ⟨d, hd, h0, h1, -, -⟩ := drawCorrespondences_pair
    scenarioGlobals [⟨100, 50⟩] [⟨0, 0⟩] 0 (by simp) (by simp)
  refine ⟨d, hd, ?_, ?_⟩
  · rw [show (0 : Nat) = 0 * 4 from rfl, h0, hz, hw, e]
    norm_num
  · rw [show (1 : Nat) = 0 * 4 + 1 from rfl, h1, hz, hh]
    norm_num

/-- C8, the claim as stated fails: `calcZoomToFit(800, 600, 400, 600)` is 1/2, but with that
zoom the reference point (100, 50) is not mapped to (50, 525): in the 800x600 window whose
right half is the 400x600 destination it is drawn at (450, 575), which is (50, 575) from the
origin (400, 0) of the destination and (50, 275) from the origin (400, 300) of the image
viewport. -/
theorem scenario_screen_point_is_not_50_525 :
    calcZoomToFit 800 600 400 600 = 1 / 2 ∧
    scenarioGlobals.imageZoom = calcZoomToFit 800 600 400 600 ∧
    ∃ d, drawCorrespondences scenarioGlobals [⟨100, 50⟩] [⟨0, 0⟩] = some d ∧
      ¬ (d.vertices[0]? = some (some 50) ∧ d.vertices[1]? = some (some 525)) ∧
      ¬ (d.vertices[0]? = some (some (400 + 50)) ∧ d.vertices[1]? = some (some (0 + 525))) ∧
      ¬ (d.vertices[0]? =
            some (some (((drawImageViewViewport 800 600 scenarioGlobals).1 : ℚ) + 50)) ∧
          d.vertices[1]? =
            some (some (((drawImageViewViewport 800 600 scenarioGlobals).2.1 : ℚ) + 525))) := by
  obtain ⟨d, hd, h0, h1⟩ := scenarioGlobals_endpoint
  refine ⟨calcZoomToFit_800_600_400_600, ?_, d, hd, ?_, ?_, ?_⟩
  · rw [scenarioGlobals_eq.1, calcZoomToFit_800_600_400_600]
  · rw [h0, h1]; norm_num
  · rw [h0, h1]; norm_num
  · rw [h0, h1, scenarioGlobals_viewport]; norm_num

/-- C8 as amended: `calcZoomToFit(800, 600, 400, 600)` is 1/2, and with that zoom, in the
800x600 window whose right half is the 400x600 destination, the image viewport has its origin
at (400, 300) and the reference point (100, 50) is drawn at (450, 575), that is at (50, 275)
from the origin of the viewport. -/
theorem scenario_screen_point :
    calcZoomToFit 800 600 400 600 = 1 / 2 ∧
    scenarioGlobals.imageZoom = calcZoomToFit 800 600 400 600 ∧
    drawImageViewViewport 800 600 scenarioGlobals = (400, 300, 400, 300) ∧
    ∃ d, drawCorrespondences scenarioGlobals [⟨100, 50⟩] [⟨0, 0⟩] = some d ∧
      d.vertices[0]? = some (some (400 + 50)) ∧ d.vertices[1]? = some (some (300 + 275)) := by
  obtain ⟨d, hd, h0, h1⟩ := scenarioGlobals_endpoint
  refine ⟨calcZoomToFit_800_600_400_600, ?_, scenarioGlobals_viewport, d, hd, ?_, ?_⟩
  · rw [scenarioGlobals_eq.1, calcZoomToFit_800_600_400_600]
  · rw [h0]; norm_num
  · rw [h1]; norm_num

/-! ### Positivity of the zoom -/

/-- C9, the claim as stated fails: for a 1x1 reference image and a window of size 1x1, the
halved width is 0 and the recomputed `imageZoom` is 0, so it is not strictly positive. -/
theorem lazyInit_imageZoom_zero_for_width_one :
    (0 : Int) < 1 ∧ (1 : Int) ≥ 1 ∧
    (lazyInit 1 1 640 480 (reshape 1 1 initGlobals)).imageZoom = 0 ∧
    ¬ (0 < (lazyInit 1 1 640 480 (reshape 1 1 initGlobals)).imageZoom) := by
  have e : Int.tdiv 1 2 = 0 := by decide
  have hz : (lazyInit 1 1 640 480 (reshape 1 1 initGlobals)).imageZoom = 0 := by
    simp only [lazyInit, reshape, initGlobals, e, if_true]
    norm_num [calcZoomToFit]
  refine ⟨by decide, by decide, hz, ?_⟩
  rw [hz]
  exact lt_irrefl 0

/-- C9 as amended: for every reference image with positive width and height and every window
size `(w, h)` with `w ≥ 2` and `h ≥ 1` passed to `reshape`, the `imageZoom` recomputed by the
lazy initialisation, `calcZoomToFit(refImageX, refImageY, gContextWidth/2, gContextHeight)`
with integer halving of the width, is strictly positive. -/
theorem lazyInit_imageZoom_pos (refImageX refImageY w h vw vh : Int) (g : Globals)
    (hx : 0 < refImageX) (hy : 0 < refImageY) (hw : 2 ≤ w) (hh : 1 ≤ h) :
    (lazyInit refImageX refImageY vw vh (reshape w h g)).imageZoom =
        calcZoomToFit refImageX refImageY (Int.tdiv w 2) h ∧
      0 < (lazyInit refImageX refImageY vw vh (reshape w h g)).imageZoom := by
  have hz : (lazyInit refImageX refImageY vw vh (reshape w h g)).imageZoom =
      calcZoomToFit refImageX refImageY (Int.tdiv w 2) h := by
    simp [lazyInit, reshape]
  refine ⟨hz, ?_⟩
  rw [hz]
  have hd : 0 < Int.tdiv w 2 := by
    rw [Int.tdiv_eq_ediv (by omega) (by omega)]
    omega
  have hx1 : (0 : ℚ) < refImageX := by exact_mod_cast hx
  have hy1 : (0 : ℚ) < refImageY := by exact_mod_cast hy
  have hd1 : (0 : ℚ) < (Int.tdiv w 2 : Int) := by exact_mod_cast hd
  have hh1 : (0 : ℚ) < h := by
    have : (0 : Int) < h := by omega
    exact_mod_cast this
  unfold calcZoomToFit
  simp only []
  split_ifs
  · exact div_pos hh1 hy1
  · exact div_pos hd1 hx1

/-- Witness for C9: an 800x600 reference image and a window of size 2x1. -/
theorem lazyInit_imageZoom_pos_witness :
    (lazyInit 800 600 640 480 (reshape 2 1 initGlobals)).imageZoom =
        calcZoomToFit 800 600 (Int.tdiv 2 2) 1 ∧
      0 < (lazyInit 800 600 640 480 (reshape 2 1 initGlobals)).imageZoom :=
  lazyInit_imageZoom_pos 800 600 2 1 640 480 initGlobals (by decide) (by decide) (by decide)
    (by decide)


/-! ### Paging through the correspondence modes -/

theorem keyboard_space (g : Globals) :
    keyboard 32 g =
      some { g with
        gDrawCorrespondencesMode :=
          if g.gDrawCorrespondencesMode + 1 > DRAW_CORRESPONDENCES_MODE_ALL then 0
          else g.gDrawCorrespondencesMode + 1 } := by
  simp [keyboard]

/-- C10: from every mode in `0 .. 7` (the initial mode is 7) a press of the space key leaves
`gDrawCorrespondencesMode` in `0 .. 7`, the 8 modes reached by 8 consecutive presses are the
values `0 .. 7`, each exactly once, and after 8 presses the globals are the ones before. -/
theorem space_pages_through_all_modes (g : Globals) (h0 : 0 ≤ g.gDrawCorrespondencesMode)
    (h7 : g.gDrawCorrespondencesMode ≤ 7) :
    initGlobals.gDrawCorrespondencesMode = 7 ∧
    (∃ g1, keyboard 32 g = some g1 ∧
      0 ≤ g1.gDrawCorrespondencesMode ∧ g1.gDrawCorrespondencesMode ≤ 7) ∧
    List.Perm
      ((List.range 8).map fun k =>
        (pressSpace (k + 1) g).map fun s => s.gDrawCorrespondencesMode)
      [some 0, some 1, some 2, some 3, some 4, some 5, some 6, some 7] ∧
    pressSpace 8 g = some g := by
  obtain ⟨cw, ch, cu, iz, vw, vh, vz, sh, sm, m, rt⟩ := g
  simp only at h0 h7
  refine ⟨rfl, ?_, ?_, ?_⟩
  · refine ⟨_, keyboard_space _, ?_, ?_⟩
    · simp only [DRAW_CORRESPONDENCES_MODE_ALL]
      split_ifs <;> omega
    · simp only [DRAW_CORRESPONDENCES_MODE_ALL]
      split_ifs <;> omega
  · interval_cases m <;>
      simp only [pressSpace, keyboard_space, Option.bind, Option.map,
        DRAW_CORRESPONDENCES_MODE_ALL, List.range, List.range.loop, List.map] <;>
      decide
  · interval_cases m <;>
      simp [pressSpace, keyboard_space, DRAW_CORRESPONDENCES_MODE_ALL]

/-- Witness for C10: the initial globals, whose mode is 7. -/
theorem space_pages_through_all_modes_witness :
    initGlobals.gDrawCorrespondencesMode = 7 ∧
    (∃ g1, keyboard 32 initGlobals = some g1 ∧
      0 ≤ g1.gDrawCorrespondencesMode ∧ g1.gDrawCorrespondencesMode ≤ 7) ∧
    List.Perm
      ((List.range 8).map fun k =>
        (pressSpace (k + 1) initGlobals).map fun s => s.gDrawCorrespondencesMode)
      [some 0, some 1, some 2, some 3, some 4, some 5, some 6, some 7] ∧
    pressSpace 8 initGlobals = some initGlobals :=
  space_pages_through_all_modes initGlobals (by decide) (by decide)


/-! ### Round trip of the coordinate maps -/

theorem pairVertices_injective (g : Globals) (hz : g.imageZoom ≠ 0) (hvz : g.videoZoom ≠ 0)
    (p q p1 q1 : Point2f) (h : pairVertices g p q = pairVertices g p1 q1) :
    p = p1 ∧ q = q1 := by
  obtain ⟨px, py⟩ := p
  obtain ⟨qx, qy⟩ := q
  obtain ⟨p1x, p1y⟩ := p1
  obtain ⟨q1x, q1y⟩ := q1
  simp only [pairVertices, List.cons.injEq, Option.some.injEq, and_true] at h
  obtain ⟨h0, h1, h2, h3⟩ := h
  have e0 : px = p1x := by
    have : px * g.imageZoom = p1x * g.imageZoom := by linarith
    exact mul_right_cancel₀ hz this
  have e1 : py = p1y := by
    have : py * g.imageZoom = p1y * g.imageZoom := by linarith
    exact mul_right_cancel₀ hz this
  have e2 : qx = q1x := mul_right_cancel₀ hvz h2
  have e3 : qy = q1y := by
    have : qy * g.videoZoom = q1y * g.videoZoom := by linarith
    exact mul_right_cancel₀ hvz this
  subst e0 e1 e2 e3
  exact ⟨rfl, rfl⟩

/-- C11: for positive `imageZoom` and `videoZoom`, every window size and every pair `i` that
both lists have, the inverse reference map takes the reference endpoint that
`drawCorrespondences` computes back to `imagePoints[i]`, and the inverse video map takes the
video endpoint back to `videoPoints[i]`; and both forward maps are injective: two pairs of
points for which `drawCorrespondences` builds the same vertices are equal. -/
theorem drawCorrespondences_round_trip (g : Globals) (imagePoints videoPoints : List Point2f)
    (i : Nat) (hi : i < imagePoints.length) (hv : i < videoPoints.length)
    (hz : 0 < g.imageZoom) (hvz : 0 < g.videoZoom) :
    (∃ d sx sy vx vy, drawCorrespondences g imagePoints videoPoints = some d ∧
      d.vertices[i * 4]? = some (some sx) ∧ d.vertices[i * 4 + 1]? = some (some sy) ∧
      d.vertices[i * 4 + 2]? = some (some vx) ∧ d.vertices[i * 4 + 3]? = some (some vy) ∧
      screenToReference g (sx, sy) = imagePoints.get ⟨i, hi⟩ ∧
      screenToVideo g (vx, vy) = videoPoints.get ⟨i, hv⟩) ∧
    (∀ p q p1 q1 : Point2f,
      drawCorrespondences g [p] [q] = drawCorrespondences g [p1] [q1] → p = p1 ∧ q = q1) := by
  constructor
  · obtain ⟨d, hd, h0, h1, h2, h3⟩ :=
      drawCorrespondences_pair g imagePoints videoPoints i hi hv
    refine ⟨d, _, _, _, _, hd, h0, h1, h2, h3, ?_, ?_⟩
    · cases hp : imagePoints.get ⟨i, hi⟩ with
      | mk px py =>
        simp only [screenToReference, Point2f.mk.injEq]
        constructor
        · field_simp
        · field_simp
    · cases hq : videoPoints.get ⟨i, hv⟩ with
      | mk qx qy =>
        simp only [screenToVideo, Point2f.mk.injEq]
        constructor
        · field_simp
        · field_simp
  · intro p q p1 q1 h
    rw [drawCorrespondences_eq, drawCorrespondences_eq] at h
    simp only [Option.some.injEq, DrawArrays.mk.injEq, true_and, List.length_singleton,
      writtenVertices, List.append_nil, min_self, Nat.sub_self, Nat.zero_mul,
      List.replicate_zero] at h
    exact pairVertices_injective g hz.ne.symm hvz.ne.symm p q p1 q1 h

/-- Witness for C11: one pair of points in the sample window, whose zooms are 2/3 and
1/320. -/
theorem drawCorrespondences_round_trip_witness :
    (∃ d sx sy vx vy, drawCorrespondences sampleGlobals [⟨1, 1⟩] [⟨5, 7⟩] = some d ∧
      d.vertices[0 * 4]? = some (some sx) ∧ d.vertices[0 * 4 + 1]? = some (some sy) ∧
      d.vertices[0 * 4 + 2]? = some (some vx) ∧ d.vertices[0 * 4 + 3]? = some (some vy) ∧
      screenToReference sampleGlobals (sx, sy) =
        ([⟨1, 1⟩] : List Point2f).get ⟨0, by simp⟩ ∧
      screenToVideo sampleGlobals (vx, vy) = ([⟨5, 7⟩] : List Point2f).get ⟨0, by simp⟩) ∧
    (∀ p q p1 q1 : Point2f,
      drawCorrespondences sampleGlobals [p] [q] = drawCorrespondences sampleGlobals [p1] [q1] →
        p = p1 ∧ q = q1) :=
  drawCorrespondences_round_trip sampleGlobals [⟨1, 1⟩] [⟨5, 7⟩] 0 (by simp) (by simp)
    (by
      have e : Int.tdiv 4 2 = 2 := by decide
      simp only [sampleGlobals, lazyInit, reshape, initGlobals, e, if_true]
      norm_num [calcZoomToFit])
    (by
      have e : Int.tdiv 4 2 = 2 := by decide
      simp only [sampleGlobals, lazyInit, reshape, initGlobals, e, if_true]
      norm_num [calcZoomToFit])


/-! ### The buffer that `drawCorrespondences` submits -/

theorem writtenVertices_length (g : Globals) :
    ∀ (imagePoints videoPoints : List Point2f),
      (writtenVertices g imagePoints videoPoints).length =
        min imagePoints.length videoPoints.length * 4 := by
  intro imagePoints
  induction imagePoints with
  | nil => intro videoPoints; simp [writtenVertices]
  | cons p ps ih =>
    intro videoPoints
    cases videoPoints with
    | nil => simp [writtenVertices]
    | cons q qs =>
      simp only [writtenVertices, List.length_append, ih qs, pairVertices, List.length_cons,
        List.length_nil, Nat.succ_min_succ]
      omega

/-- C16: when `videoPoints` is at least as long as `imagePoints`, of length `n`,
`drawCorrespondences` ends without a write outside its buffer of `4n` floats, it submits `2n`
vertices, every float of the buffer was written by the loop, and the four floats of segment
`i` are the mapped `imagePoints[i]` followed by the mapped `videoPoints[i]`; and there is an
input with `videoPoints` shorter than `imagePoints` for which a submitted float was never
written. -/
theorem drawCorrespondences_buffer_written (g : Globals)
    (imagePoints videoPoints : List Point2f)
    (hlen : imagePoints.length ≤ videoPoints.length) :
    (∃ d, drawCorrespondences g imagePoints videoPoints = some d ∧
      d.vertices.length = imagePoints.length * 4 ∧
      d.first = 0 ∧ d.count = (imagePoints.length : Int) * 2 ∧
      (∀ k, k < imagePoints.length * 4 → ∃ v, d.vertices[k]? = some (some v)) ∧
      (∀ (i : Nat) (hi : i < imagePoints.length),
        d.vertices[i * 4]? =
          some (some (((Int.tdiv g.gContextWidth 2 : Int) : ℚ) +
            (imagePoints.get ⟨i, hi⟩).x * g.imageZoom)) ∧
        d.vertices[i * 4 + 1]? =
          some (some ((g.gContextHeight : ℚ) - (imagePoints.get ⟨i, hi⟩).y * g.imageZoom)) ∧
        d.vertices[i * 4 + 2]? =
          some (some ((videoPoints.get ⟨i, lt_of_lt_of_le hi hlen⟩).x * g.videoZoom)) ∧
        d.vertices[i * 4 + 3]? =
          some (some ((g.gContextHeight : ℚ) -
            (videoPoints.get ⟨i, lt_of_lt_of_le hi hlen⟩).y * g.videoZoom)))) ∧
    (∃ (ips vps : List Point2f) (d : DrawArrays) (k : Nat), vps.length < ips.length ∧
      drawCorrespondences g ips vps = some d ∧
      (k : Int) < d.count * 2 ∧ d.vertices[k]? = some none) := by
  have hmin : min imagePoints.length videoPoints.length = imagePoints.length :=
    Nat.min_eq_left hlen
  refine ⟨⟨_, drawCorrespondences_eq g imagePoints videoPoints, ?_, rfl, rfl, ?_, ?_⟩, ?_⟩
  · simp [writtenVertices_length, hmin]
  · intro k hk
    have hi : k / 4 < imagePoints.length := by omega
    have hv : k / 4 < videoPoints.length := lt_of_lt_of_le hi hlen
    have hj : k % 4 < 4 := Nat.mod_lt _ (by omega)
    have h := writtenVertices_getElem? g
      (List.replicate
        ((imagePoints.length - min imagePoints.length videoPoints.length) * 4) none)
      imagePoints videoPoints (k / 4) hi hv (k % 4) hj
    have e : k / 4 * 4 + k % 4 = k := by omega
    rw [e] at h
    simp only [h]
    have hcases : k % 4 = 0 ∨ k % 4 = 1 ∨ k % 4 = 2 ∨ k % 4 = 3 := by omega
    rcases hcases with h0 | h0 | h0 | h0 <;> rw [h0] <;> exact ⟨_, rfl⟩
  · intro i hi
    obtain ⟨d, hd, h0, h1, h2, h3⟩ := drawCorrespondences_pair g imagePoints videoPoints i hi
      (lt_of_lt_of_le hi hlen)
    rw [drawCorrespondences_eq] at hd
    cases hd
    exact ⟨h0, h1, h2, h3⟩
  · refine ⟨[⟨1, 1⟩], [], _, 0, by simp, drawCorrespondences_eq g [⟨1, 1⟩] [], ?_, ?_⟩
    · simp
    · simp [writtenVertices, List.replicate]

/-- Witness for C16: one image point and two video points in the sample window. -/
theorem drawCorrespondences_buffer_written_witness :
    (∃ d, drawCorrespondences sampleGlobals [⟨1, 1⟩] [⟨5, 7⟩, ⟨2, 3⟩] = some d ∧
      d.vertices.length = ([⟨1, 1⟩] : List Point2f).length * 4 ∧
      d.first = 0 ∧ d.count = ((([⟨1, 1⟩] : List Point2f).length : Nat) : Int) * 2 ∧
      (∀ k, k < ([⟨1, 1⟩] : List Point2f).length * 4 → ∃ v, d.vertices[k]? = some (some v)) ∧
      (∀ (i : Nat) (hi : i < ([⟨1, 1⟩] : List Point2f).length),
        d.vertices[i * 4]? =
          some (some (((Int.tdiv sampleGlobals.gContextWidth 2 : Int) : ℚ) +
            (([⟨1, 1⟩] : List Point2f).get ⟨i, hi⟩).x * sampleGlobals.imageZoom)) ∧
        d.vertices[i * 4 + 1]? =
          some (some ((sampleGlobals.gContextHeight : ℚ) -
            (([⟨1, 1⟩] : List Point2f).get ⟨i, hi⟩).y * sampleGlobals.imageZoom)) ∧
        d.vertices[i * 4 + 2]? =
          some (some ((([⟨5, 7⟩, ⟨2, 3⟩] : List Point2f).get
            ⟨i, lt_of_lt_of_le hi (by simp)⟩).x * sampleGlobals.videoZoom)) ∧
        d.vertices[i * 4 + 3]? =
          some (some ((sampleGlobals.gContextHeight : ℚ) -
            (([⟨5, 7⟩, ⟨2, 3⟩] : List Point2f).get
              ⟨i, lt_of_lt_of_le hi (by simp)⟩).y * sampleGlobals.videoZoom)))) ∧
    (∃ (ips vps : List Point2f) (d : DrawArrays) (k : Nat), vps.length < ips.length ∧
      drawCorrespondences sampleGlobals ips vps = some d ∧
      (k : Int) < d.count * 2 ∧ d.vertices[k]? = some none) :=
  drawCorrespondences_buffer_written sampleGlobals [⟨1, 1⟩] [⟨5, 7⟩, ⟨2, 3⟩] (by simp)


/-! ### The viewport of the image view -/

theorem calcZoomToFit_bounds (sw sh dw dh : Int) (hsw : 0 < sw) (hsh : 0 < sh)
    (hdw : 0 ≤ dw) (hdh : 0 ≤ dh) :
    0 ≤ calcZoomToFit sw sh dw dh ∧
      (sw : ℚ) * calcZoomToFit sw sh dw dh ≤ dw ∧
      (sh : ℚ) * calcZoomToFit sw sh dw dh ≤ dh := by
  have hsw1 : (0 : ℚ) < sw := by exact_mod_cast hsw
  have hsh1 : (0 : ℚ) < sh := by exact_mod_cast hsh
  have hdw1 : (0 : ℚ) ≤ dw := by exact_mod_cast hdw
  have hdh1 : (0 : ℚ) ≤ dh := by exact_mod_cast hdh
  have ex : (sw : ℚ) * ((dw : ℚ) / sw) = dw := mul_div_cancel₀ _ hsw1.ne.symm
  have ey : (sh : ℚ) * ((dh : ℚ) / sh) = dh := mul_div_cancel₀ _ hsh1.ne.symm
  unfold calcZoomToFit
  simp only []
  split_ifs with h
  · refine ⟨div_nonneg hdh1 hsh1.le, ?_, le_of_eq ey⟩
    calc (sw : ℚ) * ((dh : ℚ) / sh) ≤ (sw : ℚ) * ((dw : ℚ) / sw) :=
          mul_le_mul_of_nonneg_left (le_of_lt h) hsw1.le
      _ = dw := ex
  · refine ⟨div_nonneg hdw1 hsw1.le, le_of_eq ex, ?_⟩
    calc (sh : ℚ) * ((dw : ℚ) / sw) ≤ (sh : ℚ) * ((dh : ℚ) / sh) :=
          mul_le_mul_of_nonneg_left (not_lt.mp h) hsh1.le
      _ = dh := ey

theorem truncToInt_bounds (q : ℚ) (n : Int) (h0 : 0 ≤ q) (hn : q ≤ n) :
    0 ≤ truncToInt q ∧ truncToInt q ≤ n := by
  simp only [truncToInt, if_pos h0]
  constructor
  · exact Int.floor_nonneg.mpr h0
  · have h1 : ((Int.floor q : Int) : ℚ) ≤ n := le_trans (Int.floor_le q) hn
    exact_mod_cast h1

/-- C15: for a reference image of positive size and a window of positive size, when
`imageZoom` is `calcZoomToFit(refImageX, refImageY, gContextWidth/2, gContextHeight)`, the
viewport that `drawImageView` computes starts at `x = gContextWidth/2`, ends at or before the
right edge of the window, starts at or above `y = 0` and ends at the top edge
`gContextHeight`; its width and height are not negative. -/
theorem drawImageView_viewport_in_right_half (refImageX refImageY : Int) (g : Globals)
    (hx : 0 < refImageX) (hy : 0 < refImageY) (hw : 0 < g.gContextWidth)
    (hh : 0 < g.gContextHeight)
    (hz : g.imageZoom =
      calcZoomToFit refImageX refImageY (Int.tdiv g.gContextWidth 2) g.gContextHeight) :
    (drawImageViewViewport refImageX refImageY g).1 = Int.tdiv g.gContextWidth 2 ∧
    (drawImageViewViewport refImageX refImageY g).1 +
        (drawImageViewViewport refImageX refImageY g).2.2.1 ≤ g.gContextWidth ∧
    0 ≤ (drawImageViewViewport refImageX refImageY g).2.1 ∧
    (drawImageViewViewport refImageX refImageY g).2.1 +
        (drawImageViewViewport refImageX refImageY g).2.2.2 = g.gContextHeight ∧
    0 ≤ (drawImageViewViewport refImageX refImageY g).2.2.1 ∧
    0 ≤ (drawImageViewViewport refImageX refImageY g).2.2.2 := by
  have hhalf : Int.tdiv g.gContextWidth 2 = g.gContextWidth / 2 :=
    Int.tdiv_eq_ediv (by omega) (by omega)
  have hhalf0 : 0 ≤ Int.tdiv g.gContextWidth 2 := by rw [hhalf]; omega
  obtain ⟨z0, zx, zy⟩ := calcZoomToFit_bounds refImageX refImageY
    (Int.tdiv g.gContextWidth 2) g.gContextHeight hx hy hhalf0 hh.le
  rw [← hz] at z0 zx zy
  have hx1 : (0 : ℚ) ≤ refImageX := by exact_mod_cast hx.le
  have hy1 : (0 : ℚ) ≤ refImageY := by exact_mod_cast hy.le
  obtain ⟨w0, w1⟩ := truncToInt_bounds _ _ (mul_nonneg hx1 z0) zx
  obtain ⟨t0, t1⟩ := truncToInt_bounds _ _ (mul_nonneg hy1 z0) zy
  simp only [drawImageViewViewport]
  rw [hhalf] at w1 ⊢
  refine ⟨trivial, ?_, ?_, ?_, w0, t0⟩ <;> omega

/-- Witness for C15: the 800x600 reference image in the 800x600 window. -/
theorem drawImageView_viewport_in_right_half_witness :
    (drawImageViewViewport 800 600 scenarioGlobals).1 =
      Int.tdiv scenarioGlobals.gContextWidth 2 ∧
    (drawImageViewViewport 800 600 scenarioGlobals).1 +
        (drawImageViewViewport 800 600 scenarioGlobals).2.2.1 ≤
      scenarioGlobals.gContextWidth ∧
    0 ≤ (drawImageViewViewport 800 600 scenarioGlobals).2.1 ∧
    (drawImageViewViewport 800 600 scenarioGlobals).2.1 +
        (drawImageViewViewport 800 600 scenarioGlobals).2.2.2 =
      scenarioGlobals.gContextHeight ∧
    0 ≤ (drawImageViewViewport 800 600 scenarioGlobals).2.2.1 ∧
    0 ≤ (drawImageViewViewport 800 600 scenarioGlobals).2.2.2 :=
  drawImageView_viewport_in_right_half 800 600 scenarioGlobals (by decide) (by decide)
    (by rw [scenarioGlobals_eq.2.1]; decide) (by rw [scenarioGlobals_eq.2.2]; decide)
    (by simp [scenarioGlobals, lazyInit, reshape, initGlobals])


/-! ### The outline of the tracked marker -/

theorem drawTrackedMarkerBox_eq (bounds : Fin 4 → ℚ × ℚ) :
    drawTrackedMarkerBox bounds =
      if (bounds 0).1 = 0 ∧ (bounds 1).1 = 0 ∧ (bounds 2).1 = 0 ∧ (bounds 3).1 = 0 then []
      else [List.ofFn bounds] := by
  have e0 : (⟨0, by omega⟩ : Fin 4) = 0 := rfl
  have e1 : (⟨1, by omega⟩ : Fin 4) = 1 := rfl
  have e2 : (⟨2, by omega⟩ : Fin 4) = 2 := rfl
  have e3 : (⟨3, by omega⟩ : Fin 4) = 3 := rfl
  by_cases h0 : (bounds 0).1 = 0 <;> by_cases h1 : (bounds 1).1 = 0 <;>
    by_cases h2 : (bounds 2).1 = 0 <;> by_cases h3 : (bounds 3).1 = 0 <;>
    simp [drawTrackedMarkerBox, drawBoundsLoop, e0, e1, e2, e3, h0, h1, h2, h3]

/-- C17: the outline of the tracked marker is drawn, by exactly one call of `drawQuadLoop`
with the four corners, if and only if at least one of the four corners of the bounds has a
non-zero x coordinate, and it is not drawn at all otherwise; the y coordinates have no
influence, so bounds whose four x coordinates are zero are not drawn whatever their y
coordinates are. -/
theorem drawTrackedMarkerBox_iff_some_x_nonzero (bounds : Fin 4 → ℚ × ℚ) :
    (drawTrackedMarkerBox bounds = [List.ofFn bounds] ↔ ∃ i, (bounds i).1 ≠ 0) ∧
    (drawTrackedMarkerBox bounds = [] ↔ ∀ i, (bounds i).1 = 0) ∧
    (drawTrackedMarkerBox bounds).length ≤ 1 ∧
    (∀ xs ys ys1 : Fin 4 → ℚ,
      (drawTrackedMarkerBox (boundsOf xs ys)).length =
        (drawTrackedMarkerBox (boundsOf xs ys1)).length) ∧
    (∀ ys : Fin 4 → ℚ, drawTrackedMarkerBox (boundsOf (fun _ => 0) ys) = []) ∧
    drawTrackedMarkerBox (boundsOf (fun _ => 0) (fun _ => 5)) = [] := by
  have hall : (∀ i, (bounds i).1 = 0) ↔
      ((bounds 0).1 = 0 ∧ (bounds 1).1 = 0 ∧ (bounds 2).1 = 0 ∧ (bounds 3).1 = 0) := by
    constructor
    · intro h; exact ⟨h 0, h 1, h 2, h 3⟩
    · rintro ⟨h0, h1, h2, h3⟩ i
      fin_cases i
      · exact h0
      · exact h1
      · exact h2
      · exact h3
  have hzero : ∀ ys : Fin 4 → ℚ, drawTrackedMarkerBox (boundsOf (fun _ => 0) ys) = [] := by
    intro ys
    rw [drawTrackedMarkerBox_eq]
    simp [boundsOf]
  refine ⟨?_, ?_, ?_, ?_, hzero, hzero _⟩
  · rw [drawTrackedMarkerBox_eq]
    split_ifs with h
    · constructor
      · intro hc; exact absurd hc (by simp)
      · rintro ⟨i, hi⟩; exact absurd (hall.mpr h i) hi
    · constructor
      · intro _
        by_contra hne
        push_neg at hne
        exact h (hall.mp hne)
      · intro _; rfl
  · rw [drawTrackedMarkerBox_eq, hall]
    split_ifs with h
    · exact ⟨fun _ => h, fun _ => rfl⟩
    · constructor
      · intro hc; exact absurd hc (by simp)
      · intro hc; exact absurd hc h
  · rw [drawTrackedMarkerBox_eq]
    split_ifs <;> simp
  · intro xs ys ys1
    rw [drawTrackedMarkerBox_eq, drawTrackedMarkerBox_eq]
    simp only [boundsOf]
    split_ifs <;> simp


/-! ### The squares around the template points -/

theorem roundHalfEven_intCast (m : Int) : roundHalfEven (m : ℚ) = m := by
  simp [roundHalfEven]

/-- A value `m / 2^j` with `|m| < 2^24` is a `float`: rounding leaves it as it is. -/
theorem roundToBinary32_dyadic (m : Int) (j : Nat) (hm : |m| < 2 ^ 24) (hj : j ≤ 126) :
    roundToBinary32 ((m : ℚ) / 2 ^ j) = (m : ℚ) / 2 ^ j := by
  by_cases h0 : m = 0
  · subst h0
    simp [roundToBinary32, roundHalfEven]
  · have hq : (0 : ℚ) < |(m : ℚ) / 2 ^ j| := by
      apply abs_pos.mpr
      have : (m : ℚ) ≠ 0 := by exact_mod_cast h0
      positivity
    have habs : |(m : ℚ) / 2 ^ j| = (|m| : ℚ) / 2 ^ j := by
      rw [abs_div, abs_of_pos (by positivity : (0 : ℚ) < 2 ^ j)]
    have hm1 : (1 : ℚ) ≤ |(m : ℚ)| := by
      have : (1 : Int) ≤ |m| := Int.one_le_abs h0
      exact_mod_cast this
    have hm2 : |(m : ℚ)| < 2 ^ 24 := by exact_mod_cast hm
    have hlo : -(j : Int) ≤ Int.log 2 |(m : ℚ) / 2 ^ j| := by
      rw [← Int.zpow_le_iff_le_log (by norm_num) hq, habs]
      rw [zpow_neg, zpow_natCast]
      push_cast
      rw [inv_eq_one_div]
      exact div_le_div_of_nonneg_right hm1 (by positivity)
    have hhi : Int.log 2 |(m : ℚ) / 2 ^ j| < 24 - (j : Int) := by
      rw [← Int.lt_zpow_iff_log_lt (by norm_num) hq, habs]
      rw [zpow_sub₀ (by norm_num), zpow_natCast]
      push_cast
      have hm3 : |(m : ℚ)| < (2 : ℚ) ^ (24 : Int) := by
        rw [show (24 : Int) = ((24 : Nat) : Int) from rfl, zpow_natCast]
        exact hm2
      exact div_lt_div_of_pos_right hm3 (by positivity)
    set e := Int.log 2 |(m : ℚ) / 2 ^ j| with he
    have hmax : max e (-126) = e := max_eq_left (by omega)
    obtain ⟨t, ht⟩ : ∃ t : Nat, (t : Int) = 23 - j - e := ⟨(23 - j - e).toNat, by omega⟩
    have hulp : binary32Ulp ((m : ℚ) / 2 ^ j) = (2 : ℚ) ^ (e - 23) := by
      unfold binary32Ulp
      rw [← he, hmax]
    have e1 : (2 : ℚ) ^ j = (2 : ℚ) ^ (j : Int) := (zpow_natCast 2 j).symm
    have e2 : ((2 : ℚ) ^ t) = (2 : ℚ) ^ (t : Int) := (zpow_natCast 2 t).symm
    have hdiv : (m : ℚ) / 2 ^ j / (2 : ℚ) ^ (e - 23) = ((m * 2 ^ t : Int) : ℚ) := by
      push_cast
      rw [e1, e2, ht, div_div, ← zpow_add₀ (by norm_num : (2 : ℚ) ≠ 0), div_eq_mul_inv,
        ← zpow_neg]
      congr 2
      omega
    unfold roundToBinary32
    rw [hulp, hdiv, roundHalfEven_intCast]
    push_cast
    rw [e1, e2, ht, mul_assoc, ← zpow_add₀ (by norm_num : (2 : ℚ) ≠ 0), div_eq_mul_inv,
      ← zpow_neg]
    congr 2
    omega

theorem roundToBinary32_intCast (n : Int) (hn : |n| < 2 ^ 24) :
    roundToBinary32 (n : ℚ) = n := by
  have h := roundToBinary32_dyadic n 0 hn (by omega)
  simpa using h

theorem templateVertices_eq (refImageY : Int) (r : ℚ) (p : Point2f) :
    templateVertices refImageY r p =
      squareAround ((truncToInt p.x : ℚ),
        (truncToInt (roundToBinary32 (roundToBinary32 (refImageY : ℚ) - p.y)) : ℚ)) r :=
  rfl

theorem truncToInt_three_halves : truncToInt (3 / 2) = 1 := by
  have h : (0 : ℚ) ≤ 3 / 2 := by norm_num
  rw [truncToInt, if_pos h, Int.floor_eq_iff]
  norm_num

theorem truncToInt_seventeen_halves : truncToInt (17 / 2) = 8 := by
  have h : (0 : ℚ) ≤ 17 / 2 := by norm_num
  rw [truncToInt, if_pos h, Int.floor_eq_iff]
  norm_num

/-- The difference is rounded to `float` before it is converted to `int`: for a reference
image of height 600 and the template point `(0, 100 + 2^-17)` the exact difference is below
500, the `float` difference is 500, and the centre of the square is at `y = 500`. -/
theorem templateVertices_rounds_before_truncation :
    (600 : ℚ) - (100 + 1 / 2 ^ 17) < 500 ∧
    roundToBinary32 (roundToBinary32 ((600 : Int) : ℚ) - (100 + 1 / 2 ^ 17)) = 500 ∧
    templateVertices 600 (15 / 2) ⟨0, 100 + 1 / 2 ^ 17⟩ = squareAround (0, 500) (15 / 2) := by
  have h600 : roundToBinary32 ((600 : Int) : ℚ) = 600 := by
    have h := roundToBinary32_intCast 600 (by decide)
    simpa using h
  have hq : (600 : ℚ) - (100 + 1 / 2 ^ 17) = 65535999 / 131072 := by norm_num
  have hpos : (0 : ℚ) < |(65535999 / 131072 : ℚ)| := by norm_num
  have hlog : Int.log 2 |(65535999 / 131072 : ℚ)| = 8 := by
    apply le_antisymm
    · have h : Int.log 2 |(65535999 / 131072 : ℚ)| < 9 := by
        rw [← Int.lt_zpow_iff_log_lt (by norm_num) hpos]
        norm_num [abs_of_pos]
      omega
    · rw [← Int.zpow_le_iff_le_log (by norm_num) hpos]
      norm_num [abs_of_pos]
  have hulp : binary32Ulp (65535999 / 131072) = 1 / 32768 := by
    unfold binary32Ulp
    rw [hlog]
    norm_num
  have hfloor : Int.floor ((65535999 : ℚ) / 4) = 16383999 := by
    rw [Int.floor_eq_iff]
    norm_num
  have hround : roundHalfEven (65535999 / 4) = 16384000 := by
    unfold roundHalfEven
    rw [hfloor]
    norm_num
  have hfl : roundToBinary32 (roundToBinary32 ((600 : Int) : ℚ) - (100 + 1 / 2 ^ 17)) = 500 := by
    rw [h600, hq]
    unfold roundToBinary32
    rw [hulp]
    have e : (65535999 / 131072 : ℚ) / (1 / 32768) = 65535999 / 4 := by norm_num
    rw [e, hround]
    norm_num
  refine ⟨by norm_num, hfl, ?_⟩
  have e500 : (500 : ℚ) = ((500 : Int) : ℚ) := by norm_num
  have e0 : (0 : ℚ) = ((0 : Int) : ℚ) := by norm_num
  rw [templateVertices_eq, hfl]
  simp only []
  rw [e500, e0, truncToInt_intCast, truncToInt_intCast]

/-- C13, the claim as stated fails: for the template point (3/2, 3/2) of level 0, with
template width 15 and a reference image of height 10, the square that `drawImageView` emits
has its centre at (1, 8), not at the flipped template point (3/2, 17/2). -/
theorem drawImageViewTemplates_centre_not_template_point :
    drawImageViewTemplates 15 10 0 [[⟨3 / 2, 3 / 2⟩]] = some [squareAround (1, 8) (15 / 2)] ∧
    squareAround (1, 8) (15 / 2) ≠ squareAround (3 / 2, ((10 : Int) : ℚ) - 3 / 2) (15 / 2) := by
  constructor
  · have h10 : roundToBinary32 ((10 : Int) : ℚ) = ((10 : Int) : ℚ) :=
      roundToBinary32_intCast 10 (by decide)
    have e : (((10 : Int) : ℚ)) - 3 / 2 = 17 / 2 := by norm_num
    have h17 : roundToBinary32 (17 / 2) = 17 / 2 := by
      have h := roundToBinary32_dyadic 17 1 (by decide) (by omega)
      have e17 : ((17 : Int) : ℚ) / 2 ^ 1 = 17 / 2 := by norm_num
      rw [e17] at h
      exact h
    simp only [drawImageViewTemplates, List.getElem?_cons_zero, Option.map, List.map,
      templateVertices_eq, h10, e, h17, truncToInt_three_halves,
      truncToInt_seventeen_halves]
    norm_num
  · simp only [squareAround]
    norm_num

/-- C13 as amended: for every level `k` of `_templatePoints` and every template point
`(px, py)` of that level, the four vertices that `drawImageView` emits are the corners of the
axis-aligned square whose half-extent is `(markerTemplateWidth * 2^k) / 2` and whose centre is
the flipped template point converted to `int`: `(trunc(px), trunc(fl(fl(refImageY) - py)))`,
where `fl` is the rounding to `float` with which the difference `refImageY - py` is computed
before it is truncated. For a template point with whole coordinates, and `refImageY` and
`refImageY - py` below `2^24` in absolute value, the centre is `(px, refImageY - py)`. The
coordinates of the vertices themselves are taken over the rationals. -/
theorem drawImageViewTemplates_squares (markerTemplateWidth refImageY : Int) (k : Nat)
    (_templatePoints : List (List Point2f)) (points : List Point2f)
    (hk : _templatePoints[k]? = some points) :
    drawImageViewTemplates markerTemplateWidth refImageY k _templatePoints =
      some (points.map fun p =>
        squareAround ((truncToInt p.x : ℚ),
            (truncToInt (roundToBinary32 (roundToBinary32 (refImageY : ℚ) - p.y)) : ℚ))
          (((markerTemplateWidth : ℚ) * 2 ^ k) / 2)) ∧
    (∀ a b : Int, |refImageY| < 2 ^ 24 → |refImageY - b| < 2 ^ 24 →
      templateVertices refImageY (((markerTemplateWidth : ℚ) * 2 ^ k) / 2) ⟨a, b⟩ =
        squareAround ((a : ℚ), (refImageY : ℚ) - b) (((markerTemplateWidth : ℚ) * 2 ^ k) / 2)) := by
  constructor
  · simp only [drawImageViewTemplates, hk, Option.map, Int.cast_mul, Int.cast_pow,
      Int.cast_ofNat]
    rfl
  · intro a b hy hd
    have e : (refImageY : ℚ) - (b : ℚ) = ((refImageY - b : Int) : ℚ) := by push_cast; rfl
    rw [templateVertices_eq]
    simp only [roundToBinary32_intCast refImageY hy, e,
      roundToBinary32_intCast (refImageY - b) hd, truncToInt_intCast]

/-- Witness for C13: level 1 of two levels, with the template point (3/2, 3/2). -/
theorem drawImageViewTemplates_squares_witness :
    drawImageViewTemplates 15 10 1 [[], [⟨3 / 2, 3 / 2⟩]] =
      some (([⟨3 / 2, 3 / 2⟩] : List Point2f).map fun p =>
        squareAround ((truncToInt p.x : ℚ),
            (truncToInt (roundToBinary32 (roundToBinary32 ((10 : Int) : ℚ) - p.y)) : ℚ))
          ((((15 : Int) : ℚ) * 2 ^ 1) / 2)) ∧
    (∀ a b : Int, |(10 : Int)| < 2 ^ 24 → |(10 : Int) - b| < 2 ^ 24 →
      templateVertices 10 ((((15 : Int) : ℚ) * 2 ^ 1) / 2) ⟨a, b⟩ =
        squareAround ((a : ℚ), ((10 : Int) : ℚ) - b) ((((15 : Int) : ℚ) * 2 ^ 1) / 2)) :=
  drawImageViewTemplates_squares 15 10 1 [[], [⟨3 / 2, 3 / 2⟩]] [⟨3 / 2, 3 / 2⟩] (by simp)

/-! ### The guide lines of the bins -/

theorem binLoop_length (refImageX refImageY : Int) :
    ∀ (fuel i : Nat), i + fuel = numBins + 1 →
      (binLoop refImageX refImageY fuel i).length = fuel * 4 := by
  intro fuel
  induction fuel with
  | zero => intro i _; simp [binLoop]
  | succ fuel ih =>
    intro i h
    have hle : i ≤ numBins := by omega
    rw [binLoop, if_pos hle]
    simp only [List.length_cons, ih (i + 1) (by omega)]
    omega

/-- The four vertices that pass `i` of the loop of the bins writes, at their places in the
array. -/
theorem binLoop_getElem? (refImageX refImageY : Int) :
    ∀ (fuel i0 i : Nat), i0 + fuel = numBins + 1 → i0 ≤ i → i ≤ numBins →
      (binLoop refImageX refImageY fuel i0)[(i - i0) * 4]? =
          some (((refImageX * (i : Int) : Int) : ℚ) / (numBins : ℚ), 0) ∧
        (binLoop refImageX refImageY fuel i0)[(i - i0) * 4 + 1]? =
          some (((refImageX * (i : Int) : Int) : ℚ) / (numBins : ℚ), (refImageY : ℚ)) ∧
        (binLoop refImageX refImageY fuel i0)[(i - i0) * 4 + 2]? =
          some (0, ((refImageY * (i : Int) : Int) : ℚ) / (numBins : ℚ)) ∧
        (binLoop refImageX refImageY fuel i0)[(i - i0) * 4 + 3]? =
          some ((refImageX : ℚ), ((refImageY * (i : Int) : Int) : ℚ) / (numBins : ℚ)) := by
  intro fuel
  induction fuel with
  | zero => intro i0 i h h0 hi; omega
  | succ fuel ih =>
    intro i0 i h h0 hi
    have hle : i0 ≤ numBins := by omega
    rw [binLoop, if_pos hle]
    rcases Nat.eq_or_lt_of_le h0 with heq | hlt
    · subst heq
      simp
    · have hrec := ih (i0 + 1) i (by omega) (by omega) hi
      have e : (i - i0) * 4 = (i - (i0 + 1)) * 4 + 4 := by omega
      rw [e]
      simpa using hrec

/-- C14: for every reference image size the guide lines of the bins are 44 vertices, that is
22 segments: for each `i` in `0 .. 10` a vertical segment at `x = refImageX*i/10` from `y = 0`
to `y = refImageY` and a horizontal segment at `y = refImageY*i/10` from `x = 0` to
`x = refImageX`. The lines for `i = 0` and `i = 10` lie on the borders of the image, and
neighbouring lines are `refImageX/10` and `refImageY/10` apart. -/
theorem drawImageViewBins_grid (refImageX refImageY : Int) :
    (drawImageViewBins refImageX refImageY).count = 44 ∧
    (drawImageViewBins refImageX refImageY).vertices.length = 44 ∧
    (∀ i : Nat, i ≤ 10 →
      (drawImageViewBins refImageX refImageY).vertices[i * 4]? =
          some ((refImageX : ℚ) * i / 10, 0) ∧
        (drawImageViewBins refImageX refImageY).vertices[i * 4 + 1]? =
          some ((refImageX : ℚ) * i / 10, (refImageY : ℚ)) ∧
        (drawImageViewBins refImageX refImageY).vertices[i * 4 + 2]? =
          some (0, (refImageY : ℚ) * i / 10) ∧
        (drawImageViewBins refImageX refImageY).vertices[i * 4 + 3]? =
          some ((refImageX : ℚ), (refImageY : ℚ) * i / 10)) ∧
    ((refImageX : ℚ) * (0 : Nat) / 10 = 0 ∧ (refImageX : ℚ) * (10 : Nat) / 10 = refImageX ∧
      (refImageY : ℚ) * (0 : Nat) / 10 = 0 ∧ (refImageY : ℚ) * (10 : Nat) / 10 = refImageY) ∧
    (∀ i : Nat, i < 10 →
      (refImageX : ℚ) * (i + 1 : Nat) / 10 - (refImageX : ℚ) * i / 10 = (refImageX : ℚ) / 10 ∧
      (refImageY : ℚ) * (i + 1 : Nat) / 10 - (refImageY : ℚ) * i / 10 =
        (refImageY : ℚ) / 10) := by
  refine ⟨by simp [drawImageViewBins, numBins], ?_, ?_, ?_, ?_⟩
  · have h := binLoop_length refImageX refImageY (numBins + 1) 0 (by omega)
    simpa [drawImageViewBins, numBins] using h
  · intro i hi
    have h := binLoop_getElem? refImageX refImageY (numBins + 1) 0 i (by omega) (by omega)
      (by simpa [numBins] using hi)
    simpa [drawImageViewBins, numBins] using h
  · refine ⟨by simp, by simp, by simp, by simp⟩
  · intro i _
    constructor
    · push_cast; ring
    · push_cast; ring


/-! ### The positional arguments of the command line -/

/-- The loop of `processCommandLineOptions` from index `i` is the scan of the arguments from
`argv[i]` on, when the fuel covers the arguments that are left. -/
theorem processLoop_eq_scanArguments (strtof : String → ℚ) (argv : List String) :
    ∀ (fuel i : Nat) (p : Preferences), argv.length - i ≤ fuel →
      processLoop strtof argv fuel i p = scanArguments strtof (argv.drop i) p := by
  intro fuel
  induction fuel with
  | zero =>
    intro i p h
    have hi : argv.length ≤ i := by omega
    rw [List.drop_eq_nil_of_le hi]
    simp [processLoop, scanArguments]
  | succ fuel ih =>
    intro i p h
    by_cases hi : i < argv.length
    · have hd : argv.drop i = argv.get ⟨i, hi⟩ :: argv.drop (i + 1) :=
        List.drop_eq_getElem_cons hi
      rw [processLoop, dif_pos hi, hd]
      by_cases h1 : i + 1 < argv.length
      · have hd1 : argv.drop (i + 1) = argv.get ⟨i + 1, h1⟩ :: argv.drop (i + 1 + 1) :=
          List.drop_eq_getElem_cons h1
        rw [hd1, scanArguments]
        by_cases hv : argv.get ⟨i, hi⟩ = "--vconf"
        · simp only [twoPartOption, dif_pos h1, if_pos hv]
          exact ih _ _ (by omega)
        · by_cases hc : argv.get ⟨i, hi⟩ = "--cpara"
          · simp only [twoPartOption, dif_pos h1, if_neg hv, if_pos hc]
            exact ih _ _ (by omega)
          · simp only [twoPartOption, dif_pos h1, if_neg hv, if_neg hc]
            cases hs : singlePartOption strtof (argv.get ⟨i, hi⟩) p with
            | returned p2 =>
              simp only []
              rw [ih _ _ (by omega), hd1]
            | usage => rfl
            | version => rfl
      · have hnil : argv.drop (i + 1) = [] := List.drop_eq_nil_of_le (by omega)
        rw [hnil, scanArguments]
        simp only [twoPartOption, dif_neg h1]
        cases hs : singlePartOption strtof (argv.get ⟨i, hi⟩) p with
        | returned p2 =>
          simp only []
          rw [ih _ _ (by omega), hnil, scanArguments]
        | usage => rfl
        | version => rfl
    · have hi1 : argv.length ≤ i := by omega
      rw [processLoop, dif_neg hi, List.drop_eq_nil_of_le hi1, scanArguments]

/-- What a single argument does to the path and the width, when it is no option at which the
process exits and is neither `--vconf` nor `--cpara`. -/
theorem singlePartOption_positional (strtof : String → ℚ) (a : String) (p : Preferences)
    (hne : ¬ isExitOption a) (hv : a ≠ "--vconf") (hc : a ≠ "--cpara") :
    ∃ p1, singlePartOption strtof a p = Outcome.returned p1 ∧
      (p1.inputFilePath, p1.inputFileWidth) =
        if isRecognisedOption a then (p.inputFilePath, p.inputFileWidth)
        else if p.inputFilePath.isNone then (some a, p.inputFileWidth)
        else (p.inputFilePath, strtof a) := by
  simp only [isExitOption, not_or, not_and] at hne
  obtain ⟨n1, n2, n3, n4, n5, n6, n7⟩ := hne
  unfold singlePartOption
  rw [if_neg (by simp [n1, n2, n3]), if_neg (by simp [n4, n5, n6])]
  by_cases hl : hasLoglevelPrefix a
  · have hr : isRecognisedOption a := by simp [isRecognisedOption, hl]
    rw [if_pos hl, if_pos hr]
    split_ifs with h1 h2 h3 h4
    · exact ⟨_, rfl, rfl⟩
    · exact ⟨_, rfl, rfl⟩
    · exact ⟨_, rfl, rfl⟩
    · exact ⟨_, rfl, rfl⟩
    · exact absurd h4 (by
        intro _
        exact n7 hl h1 h2 h3 h4)
  · rw [if_neg hl]
    by_cases t1 : a = "-templates"
    · rw [if_pos t1, if_pos (by simp [isRecognisedOption, t1])]; exact ⟨_, rfl, rfl⟩
    rw [if_neg t1]
    by_cases t2 : a = "-notemplates"
    · rw [if_pos t2, if_pos (by simp [isRecognisedOption, t2])]; exact ⟨_, rfl, rfl⟩
    rw [if_neg t2]
    by_cases t3 : a = "-features"
    · rw [if_pos t3, if_pos (by simp [isRecognisedOption, t3])]; exact ⟨_, rfl, rfl⟩
    rw [if_neg t3]
    by_cases t4 : a = "-nofeatures"
    · rw [if_pos t4, if_pos (by simp [isRecognisedOption, t4])]; exact ⟨_, rfl, rfl⟩
    rw [if_neg t4]
    by_cases t5 : a = "-bins"
    · rw [if_pos t5, if_pos (by simp [isRecognisedOption, t5])]; exact ⟨_, rfl, rfl⟩
    rw [if_neg t5]
    by_cases t6 : a = "-nobins"
    · rw [if_pos t6, if_pos (by simp [isRecognisedOption, t6])]; exact ⟨_, rfl, rfl⟩
    rw [if_neg t6]
    have hr : ¬ isRecognisedOption a := by
      simp [isRecognisedOption, hv, hc, n1, n2, n3, n4, n5, n6, hl, t1, t2, t3, t4, t5, t6]
    rw [if_neg hr]
    split_ifs with hp
    · exact ⟨_, rfl, rfl⟩
    · exact ⟨_, rfl, rfl⟩

theorem unconsumedArguments_two_part (a b : String) (rest : List String)
    (h : a = "--vconf" ∨ a = "--cpara") :
    unconsumedArguments (a :: b :: rest) = unconsumedArguments rest := by
  rw [unconsumedArguments, if_pos h]

theorem unconsumedArguments_other (a b : String) (rest : List String)
    (h : ¬ (a = "--vconf" ∨ a = "--cpara")) :
    unconsumedArguments (a :: b :: rest) = a :: unconsumedArguments (b :: rest) := by
  rw [unconsumedArguments, if_neg h]

theorem positionalArguments_other (a b : String) (rest : List String)
    (h : ¬ (a = "--vconf" ∨ a = "--cpara")) :
    positionalArguments (a :: b :: rest) =
      if isRecognisedOption a then positionalArguments (b :: rest)
      else a :: positionalArguments (b :: rest) := by
  simp only [positionalArguments, unconsumedArguments_other a b rest h, List.filter_cons]
  by_cases hr : isRecognisedOption a <;> simp [hr]

/-- Under the scan every positional argument is read in turn, when no option at which the
process exits is met and no `--vconf` or `--cpara` is left without a value. -/
theorem scanArguments_positional (strtof : String → ℚ) :
    ∀ (n : Nat) (l : List String) (p : Preferences), l.length = n →
      (∀ a ∈ unconsumedArguments l, ¬ isExitOption a) →
      "--vconf" ∉ unconsumedArguments l → "--cpara" ∉ unconsumedArguments l →
      ∃ p1, scanArguments strtof l p = Outcome.returned p1 ∧
        (p1.inputFilePath, p1.inputFileWidth) =
          applyPositionals strtof (p.inputFilePath, p.inputFileWidth)
            (positionalArguments l) := by
  intro n
  induction n using Nat.strong_induction_on with
  | _ n ih =>
    intro l p hlen hexit hv hc
    match l, hlen, hexit, hv, hc with
    | [], _, _, _, _ =>
      exact ⟨p, by simp [scanArguments], by
        simp [positionalArguments, unconsumedArguments, applyPositionals]⟩
    | [a], _, hexit, hv, hc =>
      have ha : ¬ isExitOption a := hexit a (by simp [unconsumedArguments])
      have hav : a ≠ "--vconf" := by
        intro h; exact hv (by simp [unconsumedArguments, h])
      have hac : a ≠ "--cpara" := by
        intro h; exact hc (by simp [unconsumedArguments, h])
      obtain ⟨p1, hs, hp⟩ := singlePartOption_positional strtof a p ha hav hac
      refine ⟨p1, by rw [scanArguments, hs], ?_⟩
      rw [hp]
      by_cases hr : isRecognisedOption a
      · simp [positionalArguments, unconsumedArguments, hr, applyPositionals]
      · simp [positionalArguments, unconsumedArguments, hr, applyPositionals]
    | a :: b :: rest, hlen, hexit, hv, hc =>
      by_cases h2 : a = "--vconf" ∨ a = "--cpara"
      · have hu := unconsumedArguments_two_part a b rest h2
        rw [hu] at hexit hv hc
        have hpos : positionalArguments (a :: b :: rest) = positionalArguments rest := by
          simp only [positionalArguments, hu]
        have hlt : rest.length < n := by simp at hlen; omega
        rw [hpos]
        rcases h2 with h2 | h2
        · obtain ⟨p1, hs, hp⟩ := ih rest.length hlt rest { p with vconf := some b } rfl
            hexit hv hc
          exact ⟨p1, by rw [scanArguments, if_pos h2, hs], hp⟩
        · have hnv : a ≠ "--vconf" := by rw [h2]; decide
          obtain ⟨p1, hs, hp⟩ := ih rest.length hlt rest { p with cpara := some b } rfl
            hexit hv hc
          exact ⟨p1, by rw [scanArguments, if_neg hnv, if_pos h2, hs], hp⟩
      · have hu := unconsumedArguments_other a b rest h2
        rw [hu] at hexit hv hc
        have hav : a ≠ "--vconf" := fun h => h2 (Or.inl h)
        have hac : a ≠ "--cpara" := fun h => h2 (Or.inr h)
        have ha : ¬ isExitOption a := hexit a (List.mem_cons_self _ _)
        obtain ⟨p1, hs, hp1⟩ := singlePartOption_positional strtof a p ha hav hac
        have hlt : (b :: rest).length < n := by simp at hlen ⊢; omega
        obtain ⟨p2, hs2, hp2⟩ := ih (b :: rest).length hlt (b :: rest) p1 rfl
          (fun x hx => hexit x (List.mem_cons_of_mem _ hx))
          (fun h => hv (List.mem_cons_of_mem _ h))
          (fun h => hc (List.mem_cons_of_mem _ h))
        refine ⟨p2, ?_, ?_⟩
        · rw [scanArguments, if_neg hav, if_neg hac, hs]
          exact hs2
        · rw [hp2, hp1, positionalArguments_other a b rest h2]
          by_cases hr : isRecognisedOption a
          · simp only [if_pos hr]
          · simp only [if_neg hr, applyPositionals]

theorem applyPositionals_path_set (strtof : String → ℚ) (path : String) :
    ∀ (widths : List String) (w : ℚ),
      applyPositionals strtof (some path, w) widths = (some path, widthOf strtof w widths) := by
  intro widths
  induction widths with
  | nil => intro w; simp [applyPositionals, widthOf]
  | cons a rest ih =>
    intro w
    rw [applyPositionals]
    simp only [Option.isNone_some, Bool.false_eq_true, if_false]
    rw [ih]
    cases rest with
    | nil => simp [widthOf]
    | cons b rest1 =>
      cases hl : (b :: rest1).getLast? with
      | none => simp [List.getLast?_eq_none_iff] at hl
      | some x => simp [widthOf, List.getLast?_cons_cons, hl]

theorem processCommandLineOptions_eq_scanArguments (strtof : String → ℚ) (argv0 : String)
    (args : List String) (p : Preferences) :
    processCommandLineOptions strtof (argv0 :: args) p =
      match scanArguments strtof args p with
      | Outcome.returned p1 =>
        if p1.inputFilePath.isNone then Outcome.usage else Outcome.returned p1
      | Outcome.usage => Outcome.usage
      | Outcome.version => Outcome.version := by
  have h := processLoop_eq_scanArguments strtof (argv0 :: args) (argv0 :: args).length 1 p
    (by omega)
  simp only [List.drop_succ_cons, List.drop_zero] at h
  rw [processCommandLineOptions, h]

/-- C12, the claim as stated fails: with the arguments `--help img.jpg` the positional
argument `img.jpg` is present, yet the process exits in `usage` and does not return with
`inputFilePath` set; and with the single argument `--vconf`, which is a recognised option and
leaves no positional argument, the function returns with `inputFilePath` set to `--vconf`
instead of calling `usage`. -/
theorem processCommandLineOptions_exits_or_takes_option :
    positionalArguments ["--help", "img.jpg"] = ["img.jpg"] ∧
    processCommandLineOptions sampleStrtof ["prog", "--help", "img.jpg"]
      (initPreferences none LogLevel.info) = Outcome.usage ∧
    positionalArguments ["--vconf"] = [] ∧
    processCommandLineOptions sampleStrtof ["prog", "--vconf"]
      (initPreferences none LogLevel.info) =
      Outcome.returned
        { initPreferences none LogLevel.info with inputFilePath := some "--vconf" } := by
  refine ⟨by decide, by decide, by decide, by decide⟩

/-- C12 as amended: for every argument list in which no help option, version option or
`-loglevel=` with an unknown value is met outside the values consumed by `--vconf` and
`--cpara`, and which does not end in a `--vconf` or `--cpara` without a value,
`processCommandLineOptions` returns with `inputFilePath` set to the first argument that is
neither a recognised option nor the value consumed by `--vconf`/`--cpara`, and with
`inputFileWidth` set to the float parse of the last later such positional argument (100.0
when there is none); when no positional argument is present it calls `usage` and exits
instead of returning. -/
theorem processCommandLineOptions_positional (strtof : String → ℚ) (argv0 : String)
    (args : List String) (vconf0 : Option String) (level0 : LogLevel)
    (hexit : ∀ a ∈ unconsumedArguments args, ¬ isExitOption a)
    (hvalue : "--vconf" ∉ unconsumedArguments args ∧ "--cpara" ∉ unconsumedArguments args) :
    (positionalArguments args = [] →
      processCommandLineOptions strtof (argv0 :: args) (initPreferences vconf0 level0) =
        Outcome.usage) ∧
    (∀ (path : String) (widths : List String), positionalArguments args = path :: widths →
      ∃ p, processCommandLineOptions strtof (argv0 :: args) (initPreferences vconf0 level0) =
          Outcome.returned p ∧
        p.inputFilePath = some path ∧
        p.inputFileWidth =
          (match widths.getLast? with
           | some w => strtof w
           | none => 100)) := by
  obtain ⟨p1, hs, hp⟩ := scanArguments_positional strtof args.length args
    (initPreferences vconf0 level0) rfl hexit hvalue.1 hvalue.2
  have hinit : ((initPreferences vconf0 level0).inputFilePath,
      (initPreferences vconf0 level0).inputFileWidth) = (none, 100) := rfl
  rw [hinit] at hp
  rw [processCommandLineOptions_eq_scanArguments, hs]
  constructor
  · intro hnil
    rw [hnil, applyPositionals] at hp
    have h1 : p1.inputFilePath = none := (Prod.mk.inj hp).1
    simp [h1]
  · intro path widths hpos
    rw [hpos, applyPositionals] at hp
    simp only [Option.isNone_none, if_true] at hp
    rw [applyPositionals_path_set] at hp
    have h1 : p1.inputFilePath = some path := (Prod.mk.inj hp).1
    have h2 : p1.inputFileWidth = widthOf strtof 100 widths := (Prod.mk.inj hp).2
    refine ⟨p1, by simp [h1], h1, ?_⟩
    rw [h2, widthOf]

/-- Witness for C12: the arguments `--vconf cfg -nobins img.jpg 70 80`. -/
theorem processCommandLineOptions_positional_witness :
    ∃ p, processCommandLineOptions sampleStrtof
          ("prog" :: ["--vconf", "cfg", "-nobins", "img.jpg", "70", "80"])
          (initPreferences none LogLevel.info) = Outcome.returned p ∧
        p.inputFilePath = some "img.jpg" ∧
        p.inputFileWidth =
          (match (["70", "80"] : List String).getLast? with
           | some w => sampleStrtof w
           | none => 100) :=
  (processCommandLineOptions_positional sampleStrtof "prog"
    ["--vconf", "cfg", "-nobins", "img.jpg", "70", "80"] none LogLevel.info
    (by decide) (by decide)).2 "img.jpg" ["70", "80"] (by decide)

end CheckLive2DTracking
